import Mathlib

set_option maxRecDepth 100000

namespace SA

def daysFromCivil (y m d : ℤ) : ℤ :=
  let y2 := if m ≤ 2 then y - 1 else y
  let era := y2 / 400
  let yoe := y2 - era * 400
  let mp := (m + 9) % 12
  let doy := (153 * mp + 2) / 5 + d - 1
  let doe := yoe * 365 + yoe / 4 - yoe / 100 + doy
  era * 146097 + doe - 719468

def eraAdj (doe : ℤ) : ℤ := doe - doe / 1460 + doe / 36524 - doe / 146096
def yearStartOfEra (n : ℤ) : ℤ := 365 * n + n / 4 - n / 100
def yearEndOfEra (n : ℤ) : ℤ := if n = 399 then 146096 else yearStartOfEra (n + 1) - 1
def yoeOf (doe : ℤ) : ℤ := eraAdj doe / 365

def eraOfDay (z : ℤ) : ℤ := (z + 719468) / 146097
def doeOfDay (z : ℤ) : ℤ := z + 719468 - eraOfDay z * 146097
def doyOfDay (z : ℤ) : ℤ := doeOfDay z - yearStartOfEra (yoeOf (doeOfDay z))
def mpOfDoy (doy : ℤ) : ℤ := (5 * doy + 2) / 153
def ddOfDoy (doy : ℤ) : ℤ := doy - (153 * mpOfDoy doy + 2) / 5 + 1
def monthOfDoy (doy : ℤ) : ℤ := if mpOfDoy doy < 10 then mpOfDoy doy + 3 else mpOfDoy doy - 9

/-- Civil date (y, m, d) of a day number (days since 1970-01-01), proleptic Gregorian. -/
def civilFromDays (z : ℤ) : ℤ × ℤ × ℤ :=
  (yoeOf (doeOfDay z) + eraOfDay z * 400 + (if monthOfDoy (doyOfDay z) ≤ 2 then 1 else 0),
   monthOfDoy (doyOfDay z), ddOfDoy (doyOfDay z))

def isLeap (y : ℤ) : Bool := y % 4 = 0 && (y % 100 ≠ 0 || y % 400 = 0)

def daysInMonth (y m : ℤ) : ℤ :=
  if m = 2 then (if isLeap y then 29 else 28)
  else if m = 4 ∨ m = 6 ∨ m = 9 ∨ m = 11 then 30 else 31

theorem daysFromCivil_unixEpoch : daysFromCivil 1970 1 1 = 0 := by decide

theorem civilFromDays_unixEpoch : civilFromDays 0 = (1970, 1, 1) := by decide

theorem civilFromDays_negative : civilFromDays (-1) = (1969, 12, 31) := by decide

theorem daysFromCivil_weekEpoch : daysFromCivil 2024 9 29 = 19995 := by decide

theorem civilFromDays_weekEpoch : civilFromDays 19995 = (2024, 9, 29) := by decide

theorem eraAdj_mono_step (d : ℤ) : eraAdj d ≤ eraAdj (d + 1) := by
  unfold eraAdj; omega

theorem eraAdj_mono {a b : ℤ} (h : a ≤ b) : eraAdj a ≤ eraAdj b := by
  have H : ∀ n : ℕ, eraAdj a ≤ eraAdj (a + n) := by
    intro n
    induction n with
    | zero => simp
    | succ k ih =>
        refine le_trans ih ?_
        have h2 := eraAdj_mono_step (a + k)
        have e : a + (k : ℤ) + 1 = a + ((k : ℕ) + 1 : ℕ) := by push_cast; ring
        rw [e] at h2
        exact h2
  obtain ⟨n, rfl⟩ : ∃ n : ℕ, b = a + n := ⟨(b - a).toNat, by omega⟩
  exact H n

theorem yoeOf_mono {a b : ℤ} (h : a ≤ b) : yoeOf a ≤ yoeOf b := by
  unfold yoeOf
  have := eraAdj_mono h
  omega

theorem yoe_boundary : ∀ n ∈ Finset.Icc (0 : ℤ) 399,
    yoeOf (yearStartOfEra n) = n ∧ yoeOf (yearEndOfEra n) = n := by decide

theorem yearStart_succ (n : ℤ) (h0 : 0 ≤ n) (h1 : n ≤ 398) :
    yearEndOfEra n + 1 = yearStartOfEra (n + 1) := by
  unfold yearEndOfEra
  rw [if_neg (by omega)]
  omega

theorem yoeOf_bounds (doe : ℤ) (h0 : 0 ≤ doe) (h1 : doe ≤ 146096) :
    0 ≤ yoeOf doe ∧ yoeOf doe ≤ 399 := by
  unfold yoeOf eraAdj; omega

theorem yoe_correct (doe : ℤ) (h0 : 0 ≤ doe) (h1 : doe ≤ 146096) :
    yearStartOfEra (yoeOf doe) ≤ doe ∧ doe ≤ yearEndOfEra (yoeOf doe) := by
  obtain ⟨hb0, hb1⟩ := yoeOf_bounds doe h0 h1
  set n := yoeOf doe with hn
  constructor
  · by_contra hlt
    push_neg at hlt
    have hn1 : 1 ≤ n := by
      rcases lt_or_le 0 n with h | h
      · omega
      · exfalso
        have hz : n = 0 := le_antisymm h hb0
        rw [hz] at hlt
        have : yearStartOfEra 0 = 0 := by decide
        omega
    have hend : doe ≤ yearEndOfEra (n - 1) := by
      have h2 := yearStart_succ (n - 1) (by omega) (by omega)
      have e : n - 1 + 1 = n := by omega
      rw [e] at h2
      omega
    have hm : yoeOf doe ≤ yoeOf (yearEndOfEra (n - 1)) := yoeOf_mono hend
    have hb : yoeOf (yearEndOfEra (n - 1)) = n - 1 :=
      (yoe_boundary (n - 1) (Finset.mem_Icc.mpr ⟨by omega, by omega⟩)).2
    omega
  · by_contra hlt
    push_neg at hlt
    have hn399 : n ≤ 398 := by
      rcases lt_or_le n 399 with h | h
      · omega
      · exfalso
        have hz : n = 399 := le_antisymm hb1 h
        rw [hz] at hlt
        have : yearEndOfEra 399 = 146096 := by decide
        omega
    have hstart : yearStartOfEra (n + 1) ≤ doe := by
      have h2 := yearStart_succ n (by omega) (by omega)
      omega
    have hm : yoeOf (yearStartOfEra (n + 1)) ≤ yoeOf doe := yoeOf_mono hstart
    have hb : yoeOf (yearStartOfEra (n + 1)) = n + 1 :=
      (yoe_boundary (n + 1) (Finset.mem_Icc.mpr ⟨by omega, by omega⟩)).1
    omega

theorem doe_bounds (z : ℤ) : 0 ≤ doeOfDay z ∧ doeOfDay z ≤ 146096 := by
  unfold doeOfDay eraOfDay; omega

theorem yearLen_check : ∀ n ∈ Finset.Icc (0 : ℤ) 399,
    yearEndOfEra n - yearStartOfEra n = (if isLeap (n + 1) then 365 else 364) := by decide

theorem doy_bounds (z : ℤ) : 0 ≤ doyOfDay z ∧ doyOfDay z ≤ 365 := by
  obtain ⟨h0, h1⟩ := doe_bounds z
  obtain ⟨hc0, hc1⟩ := yoe_correct (doeOfDay z) h0 h1
  obtain ⟨hn0, hn1⟩ := yoeOf_bounds (doeOfDay z) h0 h1
  have hlen := yearLen_check (yoeOf (doeOfDay z)) (Finset.mem_Icc.mpr ⟨hn0, hn1⟩)
  unfold doyOfDay
  constructor
  · omega
  · rcases ite_eq_or_eq (isLeap (yoeOf (doeOfDay z) + 1) = true) (365 : ℤ) 364 with h | h <;> omega

theorem month_day_check : ∀ doy ∈ Finset.Icc (0 : ℤ) 365,
    (1 ≤ monthOfDoy doy ∧ monthOfDoy doy ≤ 12) ∧
    1 ≤ ddOfDoy doy ∧
    (monthOfDoy doy + 9) % 12 = mpOfDoy doy ∧
    (153 * mpOfDoy doy + 2) / 5 + ddOfDoy doy - 1 = doy ∧
    (monthOfDoy doy = 2 → ddOfDoy doy ≤ 28 ∨ (ddOfDoy doy = 29 ∧ doy = 365)) ∧
    (monthOfDoy doy ≠ 2 → ddOfDoy doy ≤ daysInMonth 1 (monthOfDoy doy)) ∧
    (monthOfDoy doy ≤ 2 ↔ 306 ≤ doy) := by decide

theorem isLeap_shift (y e : ℤ) : isLeap (y + 400 * e) = isLeap y := by
  unfold isLeap
  have h4 : (y + 400 * e) % 4 = y % 4 := by omega
  have h100 : (y + 400 * e) % 100 = y % 100 := by omega
  have h400 : (y + 400 * e) % 400 = y % 400 := by omega
  rw [h4, h100, h400]


theorem daysInMonth_ne_two (y y2 m : ℤ) (h : m ≠ 2) : daysInMonth y m = daysInMonth y2 m := by
  unfold daysInMonth
  rw [if_neg h, if_neg h]

theorem civil_month_valid (z : ℤ) :
    1 ≤ (civilFromDays z).2.1 ∧ (civilFromDays z).2.1 ≤ 12 := by
  obtain ⟨hd0, hd1⟩ := doy_bounds z
  have hmd := month_day_check (doyOfDay z) (Finset.mem_Icc.mpr ⟨hd0, hd1⟩)
  exact hmd.1

theorem civil_day_valid (z : ℤ) :
    1 ≤ (civilFromDays z).2.2 ∧
    (civilFromDays z).2.2 ≤ daysInMonth (civilFromDays z).1 (civilFromDays z).2.1 := by
  obtain ⟨h0, h1⟩ := doe_bounds z
  obtain ⟨hy0, hy1⟩ := yoe_correct _ h0 h1
  obtain ⟨hn0, hn1⟩ := yoeOf_bounds _ h0 h1
  obtain ⟨hd0, hd1⟩ := doy_bounds z
  have hmd := month_day_check (doyOfDay z) (Finset.mem_Icc.mpr ⟨hd0, hd1⟩)
  obtain ⟨⟨hm1, hm2⟩, hdd1, hmp, hdoy, hfeb, hnfeb, hje⟩ := hmd
  refine ⟨hdd1, ?_⟩
  show ddOfDoy (doyOfDay z) ≤ daysInMonth _ (monthOfDoy (doyOfDay z))
  by_cases h2 : monthOfDoy (doyOfDay z) = 2
  · rcases hfeb h2 with h | ⟨hdd, hdoy365⟩
    · have h28 : (28 : ℤ) ≤ daysInMonth (civilFromDays z).1 2 := by
        unfold daysInMonth
        rcases ite_eq_or_eq (isLeap (civilFromDays z).1 = true) (29 : ℤ) 28 with he | he <;>
          simp only [if_pos rfl] <;> omega
      rw [h2]; omega
    · -- day 29: the shifted year has 366 days, so year-of-era + 1 is leap
      have hlen := yearLen_check (yoeOf (doeOfDay z)) (Finset.mem_Icc.mpr ⟨hn0, hn1⟩)
      have h366 : yearEndOfEra (yoeOf (doeOfDay z)) - yearStartOfEra (yoeOf (doeOfDay z)) = 365 := by
        have : doyOfDay z ≤ yearEndOfEra (yoeOf (doeOfDay z)) - yearStartOfEra (yoeOf (doeOfDay z)) := by
          unfold doyOfDay at *
          omega
        rcases ite_eq_or_eq (isLeap (yoeOf (doeOfDay z) + 1) = true) (365 : ℤ) 364 with he | he <;> omega
      have hleapN : isLeap (yoeOf (doeOfDay z) + 1) = true := by
        by_contra hc
        rw [if_neg hc] at hlen
        omega
      have hyr : (civilFromDays z).1 = yoeOf (doeOfDay z) + 1 + 400 * eraOfDay z := by
        show yoeOf (doeOfDay z) + eraOfDay z * 400 + _ = _
        rw [if_pos (by rw [h2])]
        ring
      have hleapY : isLeap (civilFromDays z).1 = true := by
        rw [hyr, isLeap_shift]
        exact hleapN
      rw [h2]
      unfold daysInMonth
      rw [if_pos rfl, if_pos hleapY]
      omega
  · rw [daysInMonth_ne_two (civilFromDays z).1 1 _ h2]
    exact hnfeb h2

theorem daysFromCivil_day_shift (y m d : ℤ) :
    daysFromCivil y m d = daysFromCivil y m 1 + d - 1 := by
  by_cases h : m ≤ 2 <;> simp [daysFromCivil, h] <;> ring

theorem daysFromCivil_eq (y m d : ℤ) :
    daysFromCivil y m d =
      (if m ≤ 2 then y - 1 else y) / 400 * 146097
      + (((if m ≤ 2 then y - 1 else y) - (if m ≤ 2 then y - 1 else y) / 400 * 400) * 365
         + ((if m ≤ 2 then y - 1 else y) - (if m ≤ 2 then y - 1 else y) / 400 * 400) / 4
         - ((if m ≤ 2 then y - 1 else y) - (if m ≤ 2 then y - 1 else y) / 400 * 400) / 100
         + ((153 * ((m + 9) % 12) + 2) / 5 + d - 1)) - 719468 := rfl

theorem daysFromCivil_reconstruct (n era doy : ℤ) (hn0 : 0 ≤ n) (hn1 : n ≤ 399)
    (hd0 : 0 ≤ doy) (hd1 : doy ≤ 365) :
    daysFromCivil (n + era * 400 + (if monthOfDoy doy ≤ 2 then 1 else 0))
      (monthOfDoy doy) (ddOfDoy doy)
      = era * 146097 + (365 * n + n / 4 - n / 100) + doy - 719468 := by
  obtain ⟨⟨hm1, hm2⟩, hdd1, hmp, hdoy, hfeb, hnfeb, hje⟩ :=
    month_day_check doy (Finset.mem_Icc.mpr ⟨hd0, hd1⟩)
  rw [daysFromCivil_eq, hmp]
  by_cases h2 : monthOfDoy doy ≤ 2
  · simp only [if_pos h2]
    omega
  · simp only [if_neg h2]
    omega

theorem civil_roundtrip (z : ℤ) :
    daysFromCivil (civilFromDays z).1 (civilFromDays z).2.1 (civilFromDays z).2.2 = z := by
  obtain ⟨h0, h1⟩ := doe_bounds z
  obtain ⟨hn0, hn1⟩ := yoeOf_bounds _ h0 h1
  obtain ⟨hd0, hd1⟩ := doy_bounds z
  have hrec := daysFromCivil_reconstruct (yoeOf (doeOfDay z)) (eraOfDay z) (doyOfDay z)
    hn0 hn1 hd0 hd1
  show daysFromCivil
      (yoeOf (doeOfDay z) + eraOfDay z * 400 + (if monthOfDoy (doyOfDay z) ≤ 2 then 1 else 0))
      (monthOfDoy (doyOfDay z)) (ddOfDoy (doyOfDay z)) = z
  rw [hrec]
  have hdoe : doeOfDay z = z + 719468 - eraOfDay z * 146097 := rfl
  have hdoyE : doyOfDay z = doeOfDay z
      - (365 * yoeOf (doeOfDay z) + yoeOf (doeOfDay z) / 4 - yoeOf (doeOfDay z) / 100) := rfl
  omega

/-! Timestamps are integer seconds since 1970-01-01T00:00:00 UTC. -/

def secPerDay : ℤ := 86400
def secPerWeek : ℤ := 7 * 86400
def dayNumOf (t : ℤ) : ℤ := t / secPerDay
def midnightOf (t : ℤ) : ℤ := dayNumOf t * secPerDay
def yearOf (t : ℤ) : ℤ := (civilFromDays (dayNumOf t)).1
def monthOf (t : ℤ) : ℤ := (civilFromDays (dayNumOf t)).2.1
def domOf (t : ℤ) : ℤ := (civilFromDays (dayNumOf t)).2.2
def monthStartOf (t : ℤ) : ℤ := daysFromCivil (yearOf t) (monthOf t) 1 * secPerDay
def daysInMonthOf (t : ℤ) : ℤ := daysInMonth (yearOf t) (monthOf t)
def monthEndLabelOf (t : ℤ) : ℤ := daysFromCivil (yearOf t) (monthOf t) (daysInMonthOf t) * secPerDay

/-- Python weekday (Monday = 0) of the civil day containing t; 1970-01-01 was a Thursday. -/
def pyWeekday (t : ℤ) : ℤ := (dayNumOf t + 3) % 7

def weekEpoch : ℤ := daysFromCivil 2024 9 29 * secPerDay

def fixedWeekStart (t : ℤ) : ℤ := weekEpoch + (t - weekEpoch) / secPerWeek * secPerWeek
def fixedWeekNumber (t : ℤ) : ℤ := (t - weekEpoch) / secPerWeek + 1

def currentWeekStart (today : ℤ) : ℤ :=
  midnightOf (today - (if pyWeekday today + 1 < 7 then pyWeekday today + 1 else 0) * secPerDay)

def weeklyDaysElapsed (today : ℤ) : ℤ := (today - currentWeekStart today) / secPerDay + 1

def calendarSundayWeekStart (t : ℤ) : ℤ := midnightOf (t - (pyWeekday t + 1) * secPerDay)

def sundayPeriodStart (t : ℤ) : ℤ := (dayNumOf t - (dayNumOf t + 4) % 7) * secPerDay

theorem monthStart_bounds (t : ℤ) :
    monthStartOf t ≤ t ∧ t < monthStartOf t + daysInMonthOf t * secPerDay := by
  have hz : daysFromCivil (yearOf t) (monthOf t) (domOf t) = dayNumOf t :=
    civil_roundtrip (dayNumOf t)
  obtain ⟨hv1, hv2⟩ := civil_day_valid (dayNumOf t)
  have hv1a : (1 : ℤ) ≤ domOf t := hv1
  have hv2a : domOf t ≤ daysInMonth (yearOf t) (monthOf t) := hv2
  rw [daysFromCivil_day_shift] at hz
  simp only [monthStartOf, daysInMonthOf, dayNumOf, secPerDay] at *
  omega

theorem weekEpoch_eq : weekEpoch = 19995 * 86400 := by decide

theorem fixedWeekStart_bounds (t : ℤ) :
    fixedWeekStart t ≤ t ∧ t < fixedWeekStart t + secPerWeek := by
  simp only [fixedWeekStart, secPerWeek, weekEpoch_eq]
  omega

theorem fixedWeekStart_mono {a b : ℤ} (h : a ≤ b) : fixedWeekStart a ≤ fixedWeekStart b := by
  simp only [fixedWeekStart, secPerWeek, weekEpoch_eq]
  omega

theorem currentWeekStart_eq_fixed (today : ℤ) : currentWeekStart today = fixedWeekStart today := by
  simp only [currentWeekStart, fixedWeekStart, midnightOf, dayNumOf, pyWeekday, secPerWeek,
    secPerDay, weekEpoch_eq]
  split_ifs with h
  · omega
  · omega

theorem currentWeekStart_le (today : ℤ) : currentWeekStart today ≤ today := by
  rw [currentWeekStart_eq_fixed]
  exact (fixedWeekStart_bounds today).1

theorem weeklyDaysElapsed_pos (today : ℤ) : 1 ≤ weeklyDaysElapsed today := by
  have h := currentWeekStart_le today
  unfold weeklyDaysElapsed secPerDay
  omega

theorem calendarSunday_bounds_ne (t : ℤ) (h : pyWeekday t ≠ 6) :
    calendarSundayWeekStart t ≤ t ∧ t < calendarSundayWeekStart t + secPerWeek := by
  simp only [calendarSundayWeekStart, midnightOf, dayNumOf, pyWeekday, secPerWeek, secPerDay] at *
  omega

theorem calendarSunday_bounds_sunday (t : ℤ) (h : pyWeekday t = 6) :
    calendarSundayWeekStart t + secPerWeek ≤ t ∧
    t < calendarSundayWeekStart t + 8 * secPerDay := by
  simp only [calendarSundayWeekStart, midnightOf, dayNumOf, pyWeekday, secPerWeek, secPerDay] at *
  omega

/-! ### Rows and generic aggregation

A raw record as the weekly/monthly aggregators see it: a timestamp
(date_column, already converted to UTC) and the value of the grouping
column (count_column / user_id), modelled as a natural number. -/

structure DRow where
  t : ℤ
  uid : ℕ
deriving DecidableEq, Repr

/-- Aggregation kinds of get_extrapolated_weekly_data / get_extrapolated_monthly_data. -/
inductive Agg
  | count
  | uniqueCount
  | meanGroupSize
deriving DecidableEq, Repr

/-- Number of distinct values in a list (pandas nunique). -/
def distinctCount (l : List ℕ) : ℕ := l.dedup.length

/-- Aggregate of one group of rows: count = size, uniqueCount = nunique of
the grouping column, meanGroupSize = mean of the per-value group sizes. -/
def aggValue : Agg → List DRow → ℚ
  | .count, rows => (rows.length : ℚ)
  | .uniqueCount, rows => (distinctCount (rows.map DRow.uid) : ℚ)
  | .meanGroupSize, rows =>
      let sizes := (rows.map DRow.uid).dedup.map
        (fun u => (rows.filter (fun r => r.uid = u)).length)
      ((sizes.sum : ℚ) / (sizes.length : ℚ))

/-- One output point of a periodic metric series. -/
structure OutRow where
  period : ℤ
  value : ℚ
  flag : Bool
deriving DecidableEq, Repr

instance outAscDec : DecidableRel (fun a b : OutRow => a.period ≤ b.period) :=
  fun a b => inferInstanceAs (Decidable (a.period ≤ b.period))

instance outDescDec : DecidableRel (fun a b : OutRow => b.period ≤ a.period) :=
  fun a b => inferInstanceAs (Decidable (b.period ≤ a.period))

instance outAscTotal : IsTotal OutRow (fun a b => a.period ≤ b.period) :=
  ⟨fun a b => le_total a.period b.period⟩

instance outAscTrans : IsTrans OutRow (fun a b => a.period ≤ b.period) :=
  ⟨fun _ _ _ hab hbc => le_trans hab hbc⟩

instance outDescTotal : IsTotal OutRow (fun a b => b.period ≤ a.period) :=
  ⟨fun a b => le_total b.period a.period⟩

instance outDescTrans : IsTrans OutRow (fun a b => b.period ≤ a.period) :=
  ⟨fun _ _ _ hab hbc => le_trans hbc hab⟩

/-- sort_values by period, ascending. -/
def sortAsc (l : List OutRow) : List OutRow := l.insertionSort (fun a b => a.period ≤ b.period)

/-- sort_values by period, descending. -/
def sortDesc (l : List OutRow) : List OutRow := l.insertionSort (fun a b => b.period ≤ a.period)

/-- Distinct group keys in ascending order (pandas groupby sorts its keys). -/
def sortedKeys (ks : List ℤ) : List ℤ := ks.dedup.insertionSort (fun a b => a ≤ b)

/-! ### get_extrapolated_weekly_data (src/metrics/weekly_intervals.py) -/

/-- np.ceil on an exact rational, as an integer: -floor(-q). -/
def ratCeil (q : ℚ) : ℤ := -((-q).num / ((-q).den : ℤ))

def weeklyCurrent (today : ℤ) (rows : List DRow) : List DRow :=
  (rows.filter (fun r => r.t ≤ today)).filter
    (fun r => fixedWeekStart r.t = currentWeekStart today)

def weeklyHistorical (today : ℤ) (rows : List DRow) : List DRow :=
  (rows.filter (fun r => r.t ≤ today)).filter
    (fun r => ¬ fixedWeekStart r.t = currentWeekStart today)

def weeklyHistOut (today : ℤ) (agg : Agg) (rows : List DRow) : List OutRow :=
  (sortedKeys ((weeklyHistorical today rows).map (fun r => fixedWeekStart r.t))).map
    (fun k => OutRow.mk k
      (aggValue agg ((weeklyHistorical today rows).filter (fun r => fixedWeekStart r.t = k))) false)

def weeklyProvisionalValue (today : ℤ) (agg : Agg) (rows : List DRow) : ℚ :=
  ((ratCeil (aggValue agg (weeklyCurrent today rows)
    / (((max 1 (weeklyDaysElapsed today) : ℤ)) : ℚ) * 7)) : ℚ)

def getExtrapolatedWeeklyData (today : ℤ) (agg : Agg) (rows : List DRow) : List OutRow :=
  if rows = [] then []
  else sortAsc (if weeklyCurrent today rows = [] then weeklyHistOut today agg rows
    else weeklyHistOut today agg rows
      ++ [OutRow.mk (currentWeekStart today) (weeklyProvisionalValue today agg rows) true])

/-! ### calculate_retention and get_extrapolated_monthly_data (src/metrics/monthly_utils.py) -/

def calculateRetention (rows : List DRow) : List (ℤ × ℚ) :=
  let months := sortedKeys (rows.map (fun r => monthEndLabelOf r.t))
  (months.zip months.tail).map (fun pc =>
    let pu := ((rows.filter (fun r => monthEndLabelOf r.t = pc.1)).map DRow.uid).dedup
    let cu := ((rows.filter (fun r => monthEndLabelOf r.t = pc.2)).map DRow.uid).dedup
    (pc.2, if pu = [] then 0
      else ((pu.filter (fun u => u ∈ cu)).length : ℚ) / (pu.length : ℚ) * 100))

def currentMonthRetentionValue (today : ℤ) (cur hist : List DRow) : ℚ :=
  let lastMonthNum := monthOf (monthStartOf today - secPerDay)
  let lm := ((hist.filter (fun r => monthOf r.t = lastMonthNum)).map DRow.uid).dedup
  let cu := (cur.map DRow.uid).dedup
  if lm = [] then 0
  else ((lm.filter (fun u => u ∈ cu)).length : ℚ) / (lm.length : ℚ) * 100

inductive MAgg
  | base (a : Agg)
  | retention
deriving DecidableEq, Repr

def monthlyCurrent (today : ℤ) (rows : List DRow) : List DRow :=
  rows.filter (fun r => monthStartOf today ≤ r.t)

def monthlyHistorical (today : ℤ) (rows : List DRow) : List DRow :=
  rows.filter (fun r => r.t < monthStartOf today)

def monthlyHistOut (today : ℤ) (magg : MAgg) (rows : List DRow) : List OutRow :=
  match magg with
  | .retention => (calculateRetention (monthlyHistorical today rows)).map
      (fun p => OutRow.mk p.1 p.2 false)
  | .base a =>
      (sortedKeys ((monthlyHistorical today rows).map (fun r => monthEndLabelOf r.t))).map
        (fun k => OutRow.mk k
          (aggValue a ((monthlyHistorical today rows).filter (fun r => monthEndLabelOf r.t = k)))
          false)

def monthlyElapsedDays (today : ℤ) : ℤ := (today - monthStartOf today) / secPerDay + 1

def monthlyProvisionalValue (today : ℤ) (magg : MAgg) (rows : List DRow) : ℚ :=
  match magg with
  | .retention =>
      currentMonthRetentionValue today (monthlyCurrent today rows) (monthlyHistorical today rows)
  | .base a =>
      ((ratCeil (aggValue a (monthlyCurrent today rows)
        / ((monthlyElapsedDays today) : ℚ) * ((daysInMonthOf today) : ℚ))) : ℚ)

def getExtrapolatedMonthlyData (today : ℤ) (magg : MAgg) (rows : List DRow) : List OutRow :=
  if rows = [] then []
  else sortAsc (if monthlyCurrent today rows = [] then monthlyHistOut today magg rows
    else monthlyHistOut today magg rows
      ++ [OutRow.mk (monthStartOf today) (monthlyProvisionalValue today magg rows) true])

/-! ### The two get_weekly_signups variants (src/utils.py and src/metrics/new_user_signups.py) -/

def signupHistOut (today : ℤ) (rows : List DRow) : List OutRow :=
  (sortedKeys ((weeklyHistorical today rows).map (fun r => fixedWeekStart r.t))).map
    (fun k => OutRow.mk k
      (((weeklyHistorical today rows).filter (fun r => fixedWeekStart r.t = k)).length : ℚ) false)

def utilsSignupValue (today : ℤ) (rows : List DRow) : ℚ :=
  ((ratCeil (((weeklyCurrent today rows).length : ℚ)
    / (((max 1 (weeklyDaysElapsed today) : ℤ)) : ℚ) * 7)) : ℚ)

def utilsWeeklySignups (today : ℤ) (rows : List DRow) : List OutRow :=
  if rows = [] then []
  else sortDesc (if weeklyCurrent today rows = [] then signupHistOut today rows
    else signupHistOut today rows
      ++ [OutRow.mk (currentWeekStart today) (utilsSignupValue today rows) true])

def metricsSignupValue (today : ℤ) (rows : List DRow) : ℚ :=
  if weeklyDaysElapsed today ≤ 3 then ((weeklyCurrent today rows).length : ℚ)
  else ((ratCeil (max (((weeklyCurrent today rows).length : ℚ)
    / ((weeklyDaysElapsed today) : ℚ) * 7) ((weeklyCurrent today rows).length : ℚ))) : ℚ)

def metricsWeeklySignups (today : ℤ) (rows : List DRow) : List OutRow :=
  if rows = [] then []
  else sortDesc (if weeklyCurrent today rows = [] then signupHistOut today rows
    else signupHistOut today rows
      ++ [OutRow.mk (currentWeekStart today) (metricsSignupValue today rows) true])

/-! ### AnalyticsDataLoader._calculate_metrics (src/data.py)

A pandas Series is modelled as an association list from period key to an
optional rational: a missing value (NaN) is none.  Groupby outputs carry
some value at every key; none cells arise from index alignment of
arithmetic between series with different indexes, exactly as in pandas. -/

abbrev Series : Type := List (ℤ × Option ℚ)

def seriesKeys (s : Series) : List ℤ := s.map Prod.fst

def seriesCell (s : Series) (k : ℤ) : Option ℚ :=
  match s.find? (fun p => p.1 = k) with
  | some p => p.2
  | none => none

/-- groupby(key).agg(f): one entry per distinct key, keys ascending. -/
def groupedBy {α : Type} (key : α → ℤ) (f : List α → ℚ) (rows : List α) : Series :=
  (sortedKeys (rows.map key)).map (fun k => (k, some (f (rows.filter (fun r => key r = k)))))

/-- Elementwise arithmetic between two series: pandas aligns on the union of
the indexes and yields NaN wherever either operand is missing. -/
def seriesBinOp (f : ℚ → ℚ → ℚ) (a b : Series) : Series :=
  (sortedKeys (seriesKeys a ++ seriesKeys b)).map (fun k =>
    (k, match seriesCell a k, seriesCell b k with
        | some x, some y => some (f x y)
        | _, _ => none))

def seriesMap (f : ℚ → ℚ) (s : Series) : Series := s.map (fun p => (p.1, p.2.map f))

/-- numpy rounding of a rational to an integer: round half to even. -/
def roundHalfEven (x : ℚ) : ℤ :=
  if x - (Int.floor x : ℚ) < 1 / 2 then Int.floor x
  else if (1 : ℚ) / 2 < x - (Int.floor x : ℚ) then Int.floor x + 1
  else if Int.floor x % 2 = 0 then Int.floor x else Int.floor x + 1

/-- Series.round(n): round to n decimal places, numpy half-to-even ties. -/
def roundTo (n : ℕ) (x : ℚ) : ℚ := (roundHalfEven (x * 10 ^ n) : ℚ) / 10 ^ n

/-- Series.reindex(keys, fill_value=0). -/
def reindexFillZero (s : Series) (keys : List ℤ) : Series :=
  keys.map (fun k =>
    (k, match s.find? (fun p => p.1 = k) with
        | some p => p.2
        | none => some 0))

def listMin : List ℤ → ℤ
  | [] => 0
  | x :: xs => xs.foldl min x

/-- A Streams / Livestreams / Bots record: user_id and created_at. -/
structure SRow where
  uid : ℕ
  t : ℤ
deriving DecidableEq, Repr

/-- A Highlights record. -/
structure HRow where
  uid : ℕ
  t : ℤ
  liked : Option Bool
  downloaded : Bool
  linkCopied : Bool
  streamId : Option ℕ
  livestreamId : Option ℕ
deriving DecidableEq, Repr

/-- A Urls record. -/
structure URow where
  uid : ℕ
  t : ℤ
  viewCount : ℤ
deriving DecidableEq, Repr

inductive Interval
  | day
  | week
  | month
deriving DecidableEq, Repr

/-- period_start assignment of _calculate_metrics: floor to day for day,
to_period(W-SAT).start_time for week, to_period(M).start_time for month. -/
def periodStart : Interval → ℤ → ℤ
  | .day, t => midnightOf t
  | .week, t => sundayPeriodStart t
  | .month, t => monthStartOf t

/-- A (user_id, period_start) activity record. -/
structure Activity where
  uid : ℕ
  p : ℤ
deriving DecidableEq, Repr

/-- all_activity: users with converted streams plus users of urls with
view_count > 1, each tagged with its period. -/
def allActivity (itv : Interval) (streams : List SRow) (urls : List URow) : List Activity :=
  streams.map (fun r => Activity.mk r.uid (periodStart itv r.t))
  ++ (urls.filter (fun r => 1 < r.viewCount)).map (fun r => Activity.mk r.uid (periodStart itv r.t))

def activeUsersSeries (act : List Activity) : Series :=
  groupedBy Activity.p (fun g => (distinctCount (g.map Activity.uid) : ℚ)) act

def newUsersSeries (act : List Activity) : Series :=
  let firstAct := (act.map Activity.uid).dedup.map
    (fun u => Activity.mk u (listMin ((act.filter (fun a => a.uid = u)).map Activity.p)))
  reindexFillZero (groupedBy Activity.p (fun g => (g.length : ℚ)) firstAct)
    (seriesKeys (activeUsersSeries act))

/-- Churn over consecutive non-empty periods of the activity set, guarded by
len(previous_users) > 0 and rounded to 2 places. -/
def churnSeries (act : List Activity) : Series :=
  let ps := sortedKeys (act.map Activity.p)
  (ps.zip ps.tail).filterMap (fun pc =>
    let pu := ((act.filter (fun a => a.p = pc.1)).map Activity.uid).dedup
    let cu := ((act.filter (fun a => a.p = pc.2)).map Activity.uid).dedup
    if 0 < pu.length then
      some (pc.2, some (roundTo 2 ((((pu.filter (fun u => ¬ u ∈ cu)).length : ℚ) / (pu.length : ℚ)) * 100)))
    else none)

/-- Like ratio of one highlight subtype: among rows with non-null liked,
the percentage that are liked = True, rounded to 4 places. -/
def likeSeries (itv : Interval) (sub : List HRow) : Series :=
  let rated := sub.filter (fun r => r.liked.isSome)
  let likes := groupedBy (fun r : HRow => periodStart itv r.t)
    (fun g => ((g.filter (fun r => r.liked = some true)).length : ℚ)) rated
  let totalRated := groupedBy (fun r : HRow => periodStart itv r.t) (fun g => (g.length : ℚ)) rated
  seriesMap (roundTo 4) (seriesMap (fun x => x * 100) (seriesBinOp (fun a b => a / b) likes totalRated))

/-- Share rate of one highlight subtype: percentage of rows with
downloaded or link_copied, over all rows, rounded to 4 places. -/
def shareSeries (itv : Interval) (sub : List HRow) : Series :=
  let shares := groupedBy (fun r : HRow => periodStart itv r.t)
    (fun g => ((g.filter (fun r => r.downloaded || r.linkCopied)).length : ℚ)) sub
  let total := groupedBy (fun r : HRow => periodStart itv r.t) (fun g => (g.length : ℚ)) sub
  seriesMap (roundTo 4) (seriesMap (fun x => x * 100) (seriesBinOp (fun a b => a / b) shares total))

def vodDownloadSeries (itv : Interval) (hl : List HRow) : Series :=
  groupedBy (fun r : HRow => periodStart itv r.t)
    (fun g => ((g.filter (fun r => r.streamId.isSome)).length : ℚ))
    (hl.filter (fun r => r.downloaded))

def liveDownloadSeries (itv : Interval) (hl : List HRow) : Series :=
  groupedBy (fun r : HRow => periodStart itv r.t)
    (fun g => ((g.filter (fun r => r.livestreamId.isSome)).length : ℚ))
    (hl.filter (fun r => r.downloaded))

def totalUrlViewsSeries (itv : Interval) (urls : List URow) : Series :=
  groupedBy (fun r : URow => periodStart itv r.t)
    (fun g => ((g.map URow.viewCount).sum : ℚ)) urls

def urlCountSeries (itv : Interval) (urls : List URow) : Series :=
  groupedBy (fun r : URow => periodStart itv r.t) (fun g => (g.length : ℚ)) urls

def urlsWithViewsSeries (itv : Interval) (urls : List URow) : Series :=
  groupedBy (fun r : URow => periodStart itv r.t)
    (fun g => ((g.filter (fun r => 0 < r.viewCount)).length : ℚ)) urls

/-- The metrics dict of _calculate_metrics, in insertion order, with each
entry present exactly under the source emptiness conditions. -/
def computeMetricsDict (itv : Interval) (streams : List SRow) (highlights : List HRow)
    (livestreams : List SRow) (bots : List SRow) (urls : List URow) : List (String × Series) :=
  let act := allActivity itv streams urls
  let pS := fun r : SRow => periodStart itv r.t
  let userBlock : List (String × Series) :=
    if (streams ≠ [] ∨ urls ≠ []) ∧ act ≠ [] then
      [("active_users", activeUsersSeries act), ("new_users", newUsersSeries act)]
    else []
  let streamBlock : List (String × Series) :=
    if streams ≠ [] then
      let totalStreams := groupedBy pS (fun g => (g.length : ℚ)) streams
      [("total_streams", totalStreams),
       ("avg_streams_per_user",
        seriesMap (roundTo 4) (seriesBinOp (fun a b => a / b) totalStreams (activeUsersSeries act)))]
    else []
  let liveBlock : List (String × Series) :=
    if livestreams ≠ [] then
      let totalLive := groupedBy pS (fun g => (g.length : ℚ)) livestreams
      let liveUsers := groupedBy pS (fun g => (distinctCount (g.map SRow.uid) : ℚ)) livestreams
      [("total_livestreams", totalLive),
       ("avg_livestreams_per_user",
        seriesMap (roundTo 4) (seriesBinOp (fun a b => a / b) totalLive liveUsers))]
    else []
  let vod := highlights.filter (fun r => r.streamId.isSome)
  let live := highlights.filter (fun r => r.livestreamId.isSome)
  let hlBlock : List (String × Series) :=
    if highlights ≠ [] then
      (if vod ≠ [] ∧ vod.filter (fun r => r.liked.isSome) ≠ [] then
        [("vod_like_ratio", likeSeries itv vod)] else [])
      ++ (if live ≠ [] ∧ live.filter (fun r => r.liked.isSome) ≠ [] then
        [("live_like_ratio", likeSeries itv live)] else [])
      ++ (if vod ≠ [] then [("vod_share_rate", shareSeries itv vod)] else [])
      ++ (if live ≠ [] then [("live_share_rate", shareSeries itv live)] else [])
      ++ [("vod_downloads", vodDownloadSeries itv highlights),
          ("livestream_downloads", liveDownloadSeries itv highlights)]
    else []
  let botBlock : List (String × Series) :=
    if bots ≠ [] then [("new_bots", groupedBy pS (fun g => (g.length : ℚ)) bots)] else []
  let urlBlock : List (String × Series) :=
    if urls ≠ [] then
      [("total_url_views", totalUrlViewsSeries itv urls),
       ("avg_views_per_url",
        seriesMap (roundTo 2) (seriesBinOp (fun a b => a / b) (totalUrlViewsSeries itv urls) (urlCountSeries itv urls))),
       ("urls_with_views_percent",
        seriesMap (roundTo 2) (seriesMap (fun x => x * 100)
          (seriesBinOp (fun a b => a / b) (urlsWithViewsSeries itv urls) (urlCountSeries itv urls))))]
    else []
  let churnBlock : List (String × Series) :=
    if act ≠ [] ∧ churnSeries act ≠ [] then [("churn_rate", churnSeries act)] else []
  userBlock ++ streamBlock ++ liveBlock ++ hlBlock ++ botBlock ++ urlBlock ++ churnBlock

/-- The fixed catalog of metric columns (empty_metrics in the source). -/
def catalogColumns : List String :=
  ["active_users", "new_users", "total_streams", "avg_streams_per_user",
   "total_livestreams", "avg_livestreams_per_user", "vod_like_ratio",
   "live_like_ratio", "vod_share_rate", "live_share_rate",
   "vod_downloads", "livestream_downloads", "new_bots", "total_url_views",
   "avg_views_per_url", "urls_with_views_percent", "churn_rate"]

/-- The assembled wide table: index plus one series per column. -/
structure MetricsTable where
  index : List ℤ
  cols : List (String × Series)
deriving DecidableEq

/-- pd.DataFrame(metrics) followed by the zero-fill loop over catalog
columns not present in the computed dict. -/
def assembleTable (dict : List (String × Series)) : MetricsTable :=
  let idx := sortedKeys ((dict.map (fun c => seriesKeys c.2)).flatten)
  let missing := catalogColumns.filter (fun c => ¬ (dict.map Prod.fst).contains c)
  MetricsTable.mk idx (dict ++ missing.map (fun c => (c, (idx.map (fun k => (k, some (0 : ℚ))) : Series))))

/-- _calculate_metrics.  none models the uncaught KeyError raised when the
Streams frame is empty (and so has no created_at column to assign
period_start from) while Highlights or Livestreams is non-empty. -/
def calculateMetrics (itv : Interval) (streams : List SRow) (highlights : List HRow)
    (livestreams : List SRow) (bots : List SRow) (urls : List URow) : Option MetricsTable :=
  if streams = [] ∧ highlights = [] ∧ livestreams = [] then
    some (MetricsTable.mk [] (catalogColumns.map (fun c => (c, ([] : Series)))))
  else if streams = [] then none
  else some (assembleTable (computeMetricsDict itv streams highlights livestreams bots urls))

/-- Cell lookup in the assembled table. -/
def cellOf (T : MetricsTable) (col : String) (k : ℤ) : Option ℚ :=
  match T.cols.find? (fun c => c.1 = col) with
  | some c => seriesCell c.2 k
  | none => none

/-! ### Concrete inputs used to evaluate the development on specific scenarios -/

/-- A computation instant: Monday 2024-09-30 12:00:00 UTC (day 2 of the
week that begins on Sunday 2024-09-29). -/
def sampleToday : ℤ := daysFromCivil 2024 9 30 * secPerDay + 43200

/-- Four signups inside the week of 2024-09-29, all before sampleToday. -/
def c6Rows : List DRow :=
  [DRow.mk (daysFromCivil 2024 9 29 * secPerDay) 1,
   DRow.mk (daysFromCivil 2024 9 29 * secPerDay + 3600) 2,
   DRow.mk (daysFromCivil 2024 9 29 * secPerDay + 7200) 3,
   DRow.mk (daysFromCivil 2024 9 30 * secPerDay) 4]

/-- One activity row in January 2025 and one in March 2025, none in February. -/
def c2Rows : List DRow :=
  [DRow.mk (daysFromCivil 2025 1 15 * secPerDay) 1,
   DRow.mk (daysFromCivil 2025 3 10 * secPerDay) 1]

/-- A timestamp on a Sunday: 2024-10-06 00:30:00 UTC. -/
def c3T : ℤ := daysFromCivil 2024 10 6 * secPerDay + 1800

/-- A timestamp one day before the fixed week epoch: 2024-09-28 00:00:00 UTC. -/
def c8T : ℤ := daysFromCivil 2024 9 28 * secPerDay

/-- One stream row (user 1) in the week of Sunday 2025-01-05. -/
def c4Streams : List SRow := [SRow.mk 1 (daysFromCivil 2025 1 6 * secPerDay)]

/-- One url row (user 2, view_count 5) in the week of Sunday 2025-01-12. -/
def c4Urls : List URow := [URow.mk 2 (daysFromCivil 2025 1 15 * secPerDay) 5]

def c4PeriodA : ℤ := periodStart Interval.week (daysFromCivil 2025 1 6 * secPerDay)

def c4PeriodB : ℤ := periodStart Interval.week (daysFromCivil 2025 1 15 * secPerDay)

def c4Table : MetricsTable :=
  (calculateMetrics Interval.week c4Streams [] [] [] c4Urls).getD (MetricsTable.mk [] [])

/-- One signup in the week of Sunday 2024-09-22 and one in the current week. -/
def c5Rows : List DRow :=
  [DRow.mk (daysFromCivil 2024 9 24 * secPerDay) 1,
   DRow.mk (daysFromCivil 2024 9 29 * secPerDay) 2]

/-- Five highlights, all VOD, in one week period, liked = [T, T, F, null, null]. -/
def c7Rows : List HRow :=
  [HRow.mk 1 (daysFromCivil 2025 1 6 * secPerDay) (some true) false false (some 1) none,
   HRow.mk 2 (daysFromCivil 2025 1 6 * secPerDay) (some true) false false (some 2) none,
   HRow.mk 3 (daysFromCivil 2025 1 6 * secPerDay) (some false) false false (some 3) none,
   HRow.mk 4 (daysFromCivil 2025 1 6 * secPerDay) none false false (some 4) none,
   HRow.mk 5 (daysFromCivil 2025 1 6 * secPerDay) none false false (some 5) none]

def c7Period : ℤ := periodStart Interval.week (daysFromCivil 2025 1 6 * secPerDay)

/-- One row on 2024-09-30 00:00 UTC: inside both the current week and the
current month as seen from sampleToday. -/
def w1Rows : List DRow := [DRow.mk (daysFromCivil 2024 9 30 * secPerDay) 5]

/-! ## Helper lemmas -/

theorem sortedKeys_mem {l : List ℤ} {a : ℤ} : a ∈ sortedKeys l ↔ a ∈ l := by
  unfold sortedKeys
  rw [(List.perm_insertionSort _ _).mem_iff, List.mem_dedup]

theorem sortedKeys_sorted (l : List ℤ) : (sortedKeys l).Sorted (fun a b => a ≤ b) :=
  List.sorted_insertionSort _ _

theorem sortedKeys_nodup (l : List ℤ) : (sortedKeys l).Nodup :=
  ((List.perm_insertionSort _ _).nodup_iff).mpr (List.nodup_dedup l)

theorem sortedKeys_perm {l l2 : List ℤ} (h : l.Perm l2) : sortedKeys l = sortedKeys l2 := by
  refine List.eq_of_perm_of_sorted ?_ (sortedKeys_sorted l) (sortedKeys_sorted l2)
  exact (List.perm_insertionSort _ _).trans (h.dedup.trans (List.perm_insertionSort _ _).symm)

theorem dedup_append_mem {α : Type} [DecidableEq α] {l : List α} {a : α} (h : a ∈ l) :
    ((l ++ [a]).dedup).Perm l.dedup := by
  have hp : (l ++ [a]).Perm (a :: l) := List.perm_append_singleton a l
  have h2 : (a :: l).dedup = l.dedup := List.dedup_cons_of_mem h
  have h3 : ((l ++ [a]).dedup).Perm ((a :: l).dedup) := hp.dedup
  rw [h2] at h3
  exact h3

theorem sortedKeys_append_mem {l : List ℤ} {a : ℤ} (h : a ∈ l) :
    sortedKeys (l ++ [a]) = sortedKeys l := by
  unfold sortedKeys
  refine List.eq_of_perm_of_sorted ?_ (List.sorted_insertionSort _ _)
    (List.sorted_insertionSort _ _)
  exact (List.perm_insertionSort _ _).trans
    ((dedup_append_mem h).trans (List.perm_insertionSort _ _).symm)

theorem dedup_length_append_mem {α : Type} [DecidableEq α] {l : List α} {a : α} (h : a ∈ l) :
    (l ++ [a]).dedup.length = l.dedup.length :=
  (dedup_append_mem h).length_eq

theorem find?_self_of_mem {α : Type} [DecidableEq α] {a : α} {l : List α} (h : a ∈ l) :
    l.find? (fun x => x = a) = some a := by
  induction l with
  | nil => cases h
  | cons b t ih =>
    by_cases hb : b = a
    · subst hb
      rw [List.find?_cons_of_pos _ (by simp)]
    · have hmem : a ∈ t := by
        rcases List.mem_cons.mp h with h1 | h1
        · exact absurd h1.symm hb
        · exact h1
      rw [List.find?_cons_of_neg _ (by simp [hb]), ih hmem]

theorem seriesCell_keysMap (g : ℤ → Option ℚ) (ks : List ℤ) (k : ℤ) (h : k ∈ ks) :
    seriesCell (ks.map (fun k2 => (k2, g k2))) k = g k := by
  unfold seriesCell
  rw [List.find?_map]
  have he : ((fun p : ℤ × Option ℚ => decide (p.1 = k)) ∘ (fun k2 => (k2, g k2)))
      = fun x : ℤ => decide (x = k) := rfl
  rw [he, find?_self_of_mem h]
  rfl

theorem seriesCell_groupedBy_mem {α : Type} (key : α → ℤ) (f : List α → ℚ)
    (rows : List α) (k : ℤ) (h : k ∈ rows.map key) :
    seriesCell (groupedBy key f rows) k = some (f (rows.filter (fun r => key r = k))) :=
  seriesCell_keysMap _ _ _ (sortedKeys_mem.mpr h)

theorem seriesCell_seriesMap (f : ℚ → ℚ) (s : Series) (k : ℤ) :
    seriesCell (seriesMap f s) k = Option.map f (seriesCell s k) := by
  unfold seriesMap seriesCell
  rw [List.find?_map]
  have he : ((fun p : ℤ × Option ℚ => decide (p.1 = k)) ∘ (fun p : ℤ × Option ℚ => (p.1, p.2.map f)))
      = fun p : ℤ × Option ℚ => decide (p.1 = k) := rfl
  rw [he]
  cases s.find? (fun p : ℤ × Option ℚ => decide (p.1 = k)) <;> rfl

theorem seriesCell_seriesBinOp_mem (f : ℚ → ℚ → ℚ) (a b : Series) (k : ℤ)
    (h : k ∈ seriesKeys a ++ seriesKeys b) :
    seriesCell (seriesBinOp f a b) k =
      (match seriesCell a k, seriesCell b k with
       | some x, some y => some (f x y)
       | _, _ => none) :=
  seriesCell_keysMap _ _ _ (sortedKeys_mem.mpr h)

theorem filter_flag_of_map_false {β : Type} (g : β → ℤ) (v : β → ℚ) (l : List β) :
    (l.map (fun k => OutRow.mk (g k) (v k) false)).filter (fun r => r.flag) = [] := by
  induction l with
  | nil => rfl
  | cons x t ih => simp [ih]

theorem fixedWeekStart_between {t today : ℤ} (h1 : t ≤ today) :
    fixedWeekStart t = currentWeekStart today ↔ currentWeekStart today ≤ t := by
  rw [currentWeekStart_eq_fixed]
  simp only [fixedWeekStart, secPerWeek, weekEpoch_eq]
  omega

theorem fixedWeekStart_lt_cws {t today : ℤ} (h1 : t ≤ today)
    (h2 : fixedWeekStart t ≠ currentWeekStart today) :
    fixedWeekStart t < currentWeekStart today := by
  rw [currentWeekStart_eq_fixed] at *
  exact lt_of_le_of_ne (fixedWeekStart_mono h1) h2

theorem today_lt_cws_add (today : ℤ) : today < currentWeekStart today + secPerWeek := by
  rw [currentWeekStart_eq_fixed]
  exact (fixedWeekStart_bounds today).2

/-- ratCeil agrees with the mathematical ceiling. -/
theorem ratCeil_eq_ceil (q : ℚ) : ratCeil q = Int.ceil q := by
  unfold ratCeil
  rw [show q = -(-q) from (neg_neg q).symm, Int.ceil_neg, neg_neg, Rat.floor_def]


theorem filter_flag_nil {l : List OutRow} (h : ∀ r ∈ l, r.flag = false) :
    l.filter (fun r => r.flag) = [] := by
  rw [List.filter_eq_nil_iff]
  intro a ha
  simp [h a ha]

theorem weeklyHistOut_flag (today : ℤ) (agg : Agg) (rows : List DRow) :
    ∀ r ∈ weeklyHistOut today agg rows, r.flag = false := by
  intro r hr
  obtain ⟨k, _, rfl⟩ := List.mem_map.mp hr
  rfl

theorem signupHistOut_flag (today : ℤ) (rows : List DRow) :
    ∀ r ∈ signupHistOut today rows, r.flag = false := by
  intro r hr
  obtain ⟨k, _, rfl⟩ := List.mem_map.mp hr
  rfl

theorem monthlyHistOut_flag (today : ℤ) (magg : MAgg) (rows : List DRow) :
    ∀ r ∈ monthlyHistOut today magg rows, r.flag = false := by
  intro r hr
  cases magg with
  | retention =>
      obtain ⟨p, _, rfl⟩ := List.mem_map.mp hr
      rfl
  | base a =>
      obtain ⟨k, _, rfl⟩ := List.mem_map.mp hr
      rfl

theorem filter_flag_append_prov {hl : List OutRow} {p : OutRow}
    (hhl : ∀ r ∈ hl, r.flag = false) (hp : p.flag = true) :
    (hl ++ [p]).filter (fun r => r.flag) = [p] := by
  rw [List.filter_append, filter_flag_nil hhl]
  simp [hp]

theorem sorted_filter_flag {l : List OutRow} (sort : List OutRow → List OutRow)
    (hperm : (sort l).Perm l) {p : OutRow} (h : l.filter (fun r => r.flag) = [p]) :
    (sort l).filter (fun r => r.flag) = [p] := by
  have := hperm.filter (fun r => r.flag)
  rw [h] at this
  exact List.perm_singleton.mp this

theorem weekly_filter_flag (today : ℤ) (agg : Agg) (rows : List DRow)
    (hr : rows ≠ []) (hc : weeklyCurrent today rows ≠ []) :
    (getExtrapolatedWeeklyData today agg rows).filter (fun r => r.flag)
      = [OutRow.mk (currentWeekStart today) (weeklyProvisionalValue today agg rows) true] := by
  unfold getExtrapolatedWeeklyData
  rw [if_neg hr, if_neg hc]
  exact sorted_filter_flag sortAsc (List.perm_insertionSort _ _)
    (filter_flag_append_prov (weeklyHistOut_flag today agg rows) rfl)

theorem weekly_filter_flag_nocur (today : ℤ) (agg : Agg) (rows : List DRow)
    (hc : weeklyCurrent today rows = []) :
    (getExtrapolatedWeeklyData today agg rows).filter (fun r => r.flag) = [] := by
  unfold getExtrapolatedWeeklyData
  by_cases hr : rows = []
  · rw [if_pos hr]; rfl
  · rw [if_neg hr, if_pos hc]
    have hperm := (List.perm_insertionSort (fun a b : OutRow => a.period ≤ b.period)
      (weeklyHistOut today agg rows)).filter (fun r => r.flag)
    rw [filter_flag_nil (weeklyHistOut_flag today agg rows)] at hperm
    exact List.Perm.eq_nil hperm

theorem monthly_filter_flag (today : ℤ) (magg : MAgg) (rows : List DRow)
    (hr : rows ≠ []) (hc : monthlyCurrent today rows ≠ []) :
    (getExtrapolatedMonthlyData today magg rows).filter (fun r => r.flag)
      = [OutRow.mk (monthStartOf today) (monthlyProvisionalValue today magg rows) true] := by
  unfold getExtrapolatedMonthlyData
  rw [if_neg hr, if_neg hc]
  exact sorted_filter_flag sortAsc (List.perm_insertionSort _ _)
    (filter_flag_append_prov (monthlyHistOut_flag today magg rows) rfl)

theorem monthly_filter_flag_nocur (today : ℤ) (magg : MAgg) (rows : List DRow)
    (hc : monthlyCurrent today rows = []) :
    (getExtrapolatedMonthlyData today magg rows).filter (fun r => r.flag) = [] := by
  unfold getExtrapolatedMonthlyData
  by_cases hr : rows = []
  · rw [if_pos hr]; rfl
  · rw [if_neg hr, if_pos hc]
    have hperm := (List.perm_insertionSort (fun a b : OutRow => a.period ≤ b.period)
      (monthlyHistOut today magg rows)).filter (fun r => r.flag)
    rw [filter_flag_nil (monthlyHistOut_flag today magg rows)] at hperm
    exact List.Perm.eq_nil hperm

theorem utils_filter_flag (today : ℤ) (rows : List DRow)
    (hr : rows ≠ []) (hc : weeklyCurrent today rows ≠ []) :
    (utilsWeeklySignups today rows).filter (fun r => r.flag)
      = [OutRow.mk (currentWeekStart today) (utilsSignupValue today rows) true] := by
  unfold utilsWeeklySignups
  rw [if_neg hr, if_neg hc]
  exact sorted_filter_flag sortDesc (List.perm_insertionSort _ _)
    (filter_flag_append_prov (signupHistOut_flag today rows) rfl)

theorem metrics_filter_flag (today : ℤ) (rows : List DRow)
    (hr : rows ≠ []) (hc : weeklyCurrent today rows ≠ []) :
    (metricsWeeklySignups today rows).filter (fun r => r.flag)
      = [OutRow.mk (currentWeekStart today) (metricsSignupValue today rows) true] := by
  unfold metricsWeeklySignups
  rw [if_neg hr, if_neg hc]
  exact sorted_filter_flag sortDesc (List.perm_insertionSort _ _)
    (filter_flag_append_prov (signupHistOut_flag today rows) rfl)

/-! ## Claims -/

/-- C3, counterexample: calculate_week_starts (src/metrics/utils.py) assigns a
timestamp that falls on the anchor weekday (Sunday, pyWeekday 6) to the week
beginning seven days earlier, so the upper bound of the claimed inequality
assigned_start ≤ t < assigned_start + 7 days fails at 2024-10-06 00:30 UTC. -/
theorem C3_counterexample_sunday :
    pyWeekday c3T = 6 ∧ calendarSundayWeekStart c3T + secPerWeek ≤ c3T := by
  constructor
  · decide
  · decide

/-- C3, amended: the epoch-fixed assignment satisfies start ≤ t < start + 7 days
for every timestamp; the Sunday-anchored calculate_week_starts satisfies it
exactly for timestamps not on the anchor weekday, while a timestamp on the
anchor weekday is assigned to the previous week start (start + 7d ≤ t < start + 8d). -/
theorem C3_week_bounds (t : ℤ) :
    (fixedWeekStart t ≤ t ∧ t < fixedWeekStart t + secPerWeek) ∧
    (pyWeekday t ≠ 6 →
      calendarSundayWeekStart t ≤ t ∧ t < calendarSundayWeekStart t + secPerWeek) ∧
    (pyWeekday t = 6 →
      calendarSundayWeekStart t + secPerWeek ≤ t ∧ t < calendarSundayWeekStart t + 8 * secPerDay) :=
  ⟨fixedWeekStart_bounds t, calendarSunday_bounds_ne t, calendarSunday_bounds_sunday t⟩

/-- Witness for C3_week_bounds at the concrete Sunday timestamp c3T. -/
theorem C3_week_bounds_witness :
    pyWeekday c3T = 6 ∧
    (calendarSundayWeekStart c3T + secPerWeek ≤ c3T ∧
     c3T < calendarSundayWeekStart c3T + 8 * secPerDay) :=
  ⟨by decide, (C3_week_bounds c3T).2.2 (by decide)⟩

/-- C8, counterexample: a timestamp one day before the epoch is assigned the
week start epoch - 7 days, which is below the epoch, so it is not of the form
epoch + 7k days with k a non-negative integer. -/
theorem C8_counterexample_pre_epoch :
    fixedWeekStart c8T = weekEpoch - secPerWeek ∧ fixedWeekStart c8T < weekEpoch := by
  constructor
  · decide
  · decide

/-- C8, amended: every epoch-fixed week start equals epoch + 7k days for some
integer k, and k is non-negative whenever the timestamp is at or after the epoch. -/
theorem C8_epoch_multiple (t : ℤ) :
    ∃ k : ℤ, fixedWeekStart t = weekEpoch + k * secPerWeek ∧ (weekEpoch ≤ t → 0 ≤ k) := by
  refine ⟨(t - weekEpoch) / secPerWeek, rfl, ?_⟩
  intro h
  have he := weekEpoch_eq
  simp only [secPerWeek] at *
  omega

/-- Witness for C8_epoch_multiple at the concrete instant sampleToday. -/
theorem C8_epoch_multiple_witness :
    ∃ k : ℤ, fixedWeekStart sampleToday = weekEpoch + k * secPerWeek ∧ 0 ≤ k := by
  obtain ⟨k, hk, himp⟩ := C8_epoch_multiple sampleToday
  exact ⟨k, hk, himp (by decide)⟩

/-- C6, counterexample: at sampleToday (day 2 of the current week) with the four
signups of c6Rows so far, get_weekly_signups of src/metrics/new_user_signups.py
takes its early-week branch (days_elapsed ≤ 3) and reports the raw actual 4,
not the claimed ceil(4/2*7) = 14. -/
theorem C6_counterexample_early_week :
    weeklyDaysElapsed sampleToday = 2 ∧
    ((metricsWeeklySignups sampleToday c6Rows).filter (fun r => r.flag)).map
      (fun r => r.value) = [4] ∧
    (4 : ℚ) ≠ 14 := by
  refine ⟨by decide, ?_, by norm_num⟩
  rw [metrics_filter_flag sampleToday c6Rows (by decide) (by decide)]
  have h1 : weeklyDaysElapsed sampleToday = 2 := by decide
  have h2 : (weeklyCurrent sampleToday c6Rows).length = 4 := by decide
  simp [metricsSignupValue, h1, h2]

/-- C6, amended: with the current week 2 days old and 4 signups so far, the
src/utils.py get_weekly_signups projects ceil(4/2*7) = 14 for the current week,
while the src/metrics/new_user_signups.py variant is still in its early-week
regime (days_elapsed ≤ 3) and reports the raw actual 4 instead. -/
theorem C6_signup_projection :
    weeklyDaysElapsed sampleToday = 2 ∧
    ((utilsWeeklySignups sampleToday c6Rows).filter (fun r => r.flag)).map
      (fun r => r.value) = [((ratCeil ((4 : ℚ) / 2 * 7)) : ℚ)] ∧
    ((ratCeil ((4 : ℚ) / 2 * 7)) : ℚ) = 14 ∧
    ((metricsWeeklySignups sampleToday c6Rows).filter (fun r => r.flag)).map
      (fun r => r.value) = [4] := by
  have h1 : weeklyDaysElapsed sampleToday = 2 := by decide
  have h2 : (weeklyCurrent sampleToday c6Rows).length = 4 := by decide
  refine ⟨h1, ?_, ?_, ?_⟩
  · rw [utils_filter_flag sampleToday c6Rows (by decide) (by decide)]
    simp [utilsSignupValue, h1, h2]
  · norm_num [ratCeil]
  · rw [metrics_filter_flag sampleToday c6Rows (by decide) (by decide)]
    simp [metricsSignupValue, h1, h2]

theorem weekly_mem_cases {today : ℤ} {agg : Agg} {rows : List DRow} {r : OutRow}
    (hr : r ∈ getExtrapolatedWeeklyData today agg rows) :
    r.flag = false ∨
    r = OutRow.mk (currentWeekStart today) (weeklyProvisionalValue today agg rows) true := by
  unfold getExtrapolatedWeeklyData at hr
  by_cases h0 : rows = []
  · rw [if_pos h0] at hr; cases hr
  · rw [if_neg h0] at hr
    unfold sortAsc at hr
    have hr2 := (List.perm_insertionSort _ _).mem_iff.mp hr
    by_cases hc : weeklyCurrent today rows = []
    · rw [if_pos hc] at hr2
      exact Or.inl (weeklyHistOut_flag _ _ _ r hr2)
    · rw [if_neg hc] at hr2
      rcases List.mem_append.mp hr2 with h | h
      · exact Or.inl (weeklyHistOut_flag _ _ _ r h)
      · right
        simpa using h

theorem monthly_mem_cases {today : ℤ} {magg : MAgg} {rows : List DRow} {r : OutRow}
    (hr : r ∈ getExtrapolatedMonthlyData today magg rows) :
    r.flag = false ∨
    r = OutRow.mk (monthStartOf today) (monthlyProvisionalValue today magg rows) true := by
  unfold getExtrapolatedMonthlyData at hr
  by_cases h0 : rows = []
  · rw [if_pos h0] at hr; cases hr
  · rw [if_neg h0] at hr
    unfold sortAsc at hr
    have hr2 := (List.perm_insertionSort _ _).mem_iff.mp hr
    by_cases hc : monthlyCurrent today rows = []
    · rw [if_pos hc] at hr2
      exact Or.inl (monthlyHistOut_flag _ _ _ r hr2)
    · rw [if_neg hc] at hr2
      rcases List.mem_append.mp hr2 with h | h
      · exact Or.inl (monthlyHistOut_flag _ _ _ r h)
      · right
        simpa using h

/-- C10: every weekly or monthly extrapolated series has at most one row with
is_extrapolated = true; such a row carries the current period start as its
period, and every row for any other period has is_extrapolated = false. -/
theorem C10_single_provisional_flag (today : ℤ) (agg : Agg) (magg : MAgg)
    (rows rowsM : List DRow) :
    ((getExtrapolatedWeeklyData today agg rows).countP (fun r => r.flag) ≤ 1) ∧
    (∀ r ∈ getExtrapolatedWeeklyData today agg rows,
      r.flag = true → r.period = currentWeekStart today) ∧
    (∀ r ∈ getExtrapolatedWeeklyData today agg rows,
      r.period ≠ currentWeekStart today → r.flag = false) ∧
    ((getExtrapolatedMonthlyData today magg rowsM).countP (fun r => r.flag) ≤ 1) ∧
    (∀ r ∈ getExtrapolatedMonthlyData today magg rowsM,
      r.flag = true → r.period = monthStartOf today) ∧
    (∀ r ∈ getExtrapolatedMonthlyData today magg rowsM,
      r.period ≠ monthStartOf today → r.flag = false) := by
  refine ⟨?_, ?_, ?_, ?_, ?_, ?_⟩
  · rw [List.countP_eq_length_filter]
    by_cases hc : weeklyCurrent today rows = []
    · rw [weekly_filter_flag_nocur today agg rows hc]
      norm_num
    · by_cases h0 : rows = []
      · rw [h0]
        unfold getExtrapolatedWeeklyData
        norm_num
      · rw [weekly_filter_flag today agg rows h0 hc]
        norm_num
  · intro r hr hf
    rcases weekly_mem_cases hr with h | h
    · rw [h] at hf; cases hf
    · rw [h]
  · intro r hr hp
    rcases weekly_mem_cases hr with h | h
    · exact h
    · exfalso
      exact hp (by rw [h])
  · rw [List.countP_eq_length_filter]
    by_cases hc : monthlyCurrent today rowsM = []
    · rw [monthly_filter_flag_nocur today magg rowsM hc]
      norm_num
    · by_cases h0 : rowsM = []
      · rw [h0]
        unfold getExtrapolatedMonthlyData
        norm_num
      · rw [monthly_filter_flag today magg rowsM h0 hc]
        norm_num
  · intro r hr hf
    rcases monthly_mem_cases hr with h | h
    · rw [h] at hf; cases hf
    · rw [h]
  · intro r hr hp
    rcases monthly_mem_cases hr with h | h
    · exact h
    · exfalso
      exact hp (by rw [h])

/-- Witness for C10 at a concrete instant and input: the provisional row of the
weekly count series over c6Rows carries the current week start. -/
theorem C10_single_provisional_flag_witness :
    (OutRow.mk (currentWeekStart sampleToday)
      (weeklyProvisionalValue sampleToday Agg.count c6Rows) true).period
      = currentWeekStart sampleToday := by
  have hmem : (OutRow.mk (currentWeekStart sampleToday)
      (weeklyProvisionalValue sampleToday Agg.count c6Rows) true)
      ∈ getExtrapolatedWeeklyData sampleToday Agg.count c6Rows := by
    apply List.mem_of_mem_filter (p := fun r : OutRow => r.flag)
    rw [weekly_filter_flag sampleToday Agg.count c6Rows (by decide) (by decide)]
    exact List.mem_singleton.mpr rfl
  exact (C10_single_provisional_flag sampleToday Agg.count (MAgg.base Agg.count)
    c6Rows c6Rows).2.1 _ hmem rfl

theorem monthlyElapsed_pos (today : ℤ) : 1 ≤ monthlyElapsedDays today := by
  have h := (monthStart_bounds today).1
  unfold monthlyElapsedDays secPerDay
  unfold secPerDay at h
  omega

theorem weeklyCurrent_eq_claim (today : ℤ) (rows : List DRow)
    (hpast : ∀ r ∈ rows, r.t ≤ today) :
    weeklyCurrent today rows = rows.filter
      (fun r => currentWeekStart today ≤ r.t ∧ r.t < currentWeekStart today + secPerWeek) := by
  unfold weeklyCurrent
  rw [List.filter_eq_self.mpr (fun r hr => decide_eq_true (hpast r hr))]
  apply List.filter_congr
  intro r hr
  have h1 := hpast r hr
  have h2 := today_lt_cws_add today
  apply decide_eq_decide.mpr
  rw [fixedWeekStart_between h1]
  constructor
  · intro h
    exact ⟨h, by omega⟩
  · intro h
    exact h.1

theorem monthlyCurrent_eq_claim (today : ℤ) (rows : List DRow)
    (hpast : ∀ r ∈ rows, r.t ≤ today) :
    monthlyCurrent today rows = rows.filter
      (fun r => monthStartOf today ≤ r.t ∧
        r.t < monthStartOf today + daysInMonthOf today * secPerDay) := by
  unfold monthlyCurrent
  apply List.filter_congr
  intro r hr
  have h1 := hpast r hr
  have h2 := (monthStart_bounds today).2
  apply decide_eq_decide.mpr
  constructor
  · intro h
    exact ⟨h, by omega⟩
  · intro h
    exact h.1

/-- C1: whenever at least one (non-future) row falls in the current week or the
current month, the provisional value appended by the weekly and monthly
count/unique-count aggregators is ceil(raw_value_so_far / max(1, elapsed_days) *
period_length), with elapsed_days the whole days since the period start
inclusive of the current day, and period_length 7 for weeks and the number of
days of the current month for months. -/
theorem C1_provisional_projection (today : ℤ) (agg : Agg)
    (_hagg : agg = Agg.count ∨ agg = Agg.uniqueCount)
    (rows : List DRow) (hpast : ∀ r ∈ rows, r.t ≤ today) :
    (rows.filter (fun r => currentWeekStart today ≤ r.t ∧
        r.t < currentWeekStart today + secPerWeek) ≠ [] →
      ((getExtrapolatedWeeklyData today agg rows).filter (fun r => r.flag)).map
          (fun r => r.value)
        = [((ratCeil (aggValue agg (rows.filter (fun r => currentWeekStart today ≤ r.t ∧
              r.t < currentWeekStart today + secPerWeek))
            / (((max 1 ((today - currentWeekStart today) / secPerDay + 1) : ℤ)) : ℚ) * 7)) : ℚ)]) ∧
    (rows.filter (fun r => monthStartOf today ≤ r.t ∧
        r.t < monthStartOf today + daysInMonthOf today * secPerDay) ≠ [] →
      ((getExtrapolatedMonthlyData today (MAgg.base agg) rows).filter (fun r => r.flag)).map
          (fun r => r.value)
        = [((ratCeil (aggValue agg (rows.filter (fun r => monthStartOf today ≤ r.t ∧
              r.t < monthStartOf today + daysInMonthOf today * secPerDay))
            / (((max 1 ((today - monthStartOf today) / secPerDay + 1) : ℤ)) : ℚ)
            * ((daysInMonthOf today) : ℚ))) : ℚ)]) := by
  have hweq := weeklyCurrent_eq_claim today rows hpast
  have hmeq := monthlyCurrent_eq_claim today rows hpast
  constructor
  · intro h
    have hr : rows ≠ [] := by
      intro h0
      rw [h0] at h
      exact h rfl
    have hc : weeklyCurrent today rows ≠ [] := by
      rw [hweq]
      exact h
    rw [weekly_filter_flag today agg rows hr hc]
    simp only [List.map_cons, List.map_nil]
    unfold weeklyProvisionalValue weeklyDaysElapsed
    rw [hweq]
  · intro h
    have hr : rows ≠ [] := by
      intro h0
      rw [h0] at h
      exact h rfl
    have hc : monthlyCurrent today rows ≠ [] := by
      rw [hmeq]
      exact h
    rw [monthly_filter_flag today (MAgg.base agg) rows hr hc]
    simp only [List.map_cons, List.map_nil]
    have hbase : monthlyProvisionalValue today (MAgg.base agg) rows
        = ((ratCeil (aggValue agg (monthlyCurrent today rows)
            / ((monthlyElapsedDays today) : ℚ) * ((daysInMonthOf today) : ℚ))) : ℚ) := rfl
    rw [hbase]
    have hmax : max 1 (monthlyElapsedDays today) = monthlyElapsedDays today :=
      max_eq_right (monthlyElapsed_pos today)
    unfold monthlyElapsedDays at hmax
    rw [hmeq]
    simp only [monthlyElapsedDays]
    rw [hmax]

/-- Witness for C1 at sampleToday with the single row of w1Rows, which lies in
both the current week and the current month. -/
theorem C1_provisional_projection_witness :
    (∀ r ∈ w1Rows, r.t ≤ sampleToday) ∧
    (w1Rows.filter (fun r => currentWeekStart sampleToday ≤ r.t ∧
        r.t < currentWeekStart sampleToday + secPerWeek) ≠ []) ∧
    ((getExtrapolatedWeeklyData sampleToday Agg.count w1Rows).filter (fun r => r.flag)).map
        (fun r => r.value)
      = [((ratCeil (aggValue Agg.count (w1Rows.filter
            (fun r => currentWeekStart sampleToday ≤ r.t ∧
              r.t < currentWeekStart sampleToday + secPerWeek))
          / (((max 1 ((sampleToday - currentWeekStart sampleToday) / secPerDay + 1) : ℤ)) : ℚ)
          * 7)) : ℚ)] := by
  refine ⟨by decide, by decide, ?_⟩
  exact (C1_provisional_projection sampleToday Agg.count (Or.inl rfl) w1Rows (by decide)).1
    (by decide)

theorem grouped_month_nonempty {rows : List DRow} {m : ℤ}
    (hm : m ∈ sortedKeys (rows.map (fun r => monthEndLabelOf r.t))) :
    ((rows.filter (fun r => monthEndLabelOf r.t = m)).map DRow.uid).dedup ≠ [] := by
  have hm2 := sortedKeys_mem.mp hm
  obtain ⟨r, hr, hrm⟩ := List.mem_map.mp hm2
  have hrf : r ∈ rows.filter (fun r => monthEndLabelOf r.t = m) :=
    List.mem_filter.mpr ⟨hr, by simp [hrm]⟩
  have : r.uid ∈ ((rows.filter (fun r => monthEndLabelOf r.t = m)).map DRow.uid).dedup :=
    List.mem_dedup.mpr (List.mem_map_of_mem DRow.uid hrf)
  exact List.ne_nil_of_mem this

theorem grouped_period_nonempty {act : List Activity} {p : ℤ}
    (hp : p ∈ sortedKeys (act.map Activity.p)) :
    ((act.filter (fun a => a.p = p)).map Activity.uid).dedup ≠ [] := by
  have hp2 := sortedKeys_mem.mp hp
  obtain ⟨a, ha, hap⟩ := List.mem_map.mp hp2
  have haf : a ∈ act.filter (fun a => a.p = p) :=
    List.mem_filter.mpr ⟨ha, by simp [hap]⟩
  have : a.uid ∈ ((act.filter (fun a => a.p = p)).map Activity.uid).dedup :=
    List.mem_dedup.mpr (List.mem_map_of_mem Activity.uid haf)
  exact List.ne_nil_of_mem this

theorem filterMap_length_of_some {α β : Type} (f : α → Option β) (l : List α)
    (h : ∀ x ∈ l, (f x).isSome) : (l.filterMap f).length = l.length := by
  induction l with
  | nil => rfl
  | cons a t ih =>
      have ha := h a (List.mem_cons_self a t)
      rcases Option.isSome_iff_exists.mp ha with ⟨b, hb⟩
      rw [List.filterMap_cons, hb]
      simp only [List.length_cons]
      rw [ih (fun x hx => h x (List.mem_cons_of_mem a hx))]

/-- C2, counterexample: with one active user in January 2025 and one in March
2025 and none in February 2025, the preceding calendar period of March has zero
users, yet calculate_retention still emits a (March, value) row, computed
against January; it is not omitted. -/
theorem C2_counterexample_gap_period :
    c2Rows.filter (fun r => monthEndLabelOf r.t = daysFromCivil 2025 2 28 * secPerDay) = [] ∧
    (calculateRetention c2Rows).map Prod.fst = [daysFromCivil 2025 3 31 * secPerDay] := by
  constructor
  · decide
  · decide

/-- C2, amended: periods with zero rows simply produce no group, so retention
emits one value for every consecutive pair of NON-EMPTY months (the previous
cohort being the most recent non-empty month, even across an empty calendar
gap); the zero-denominator guard never fires because every grouped month has at
least one user, and the churn guard in _calculate_metrics likewise never drops
a pair.  A period whose immediately preceding calendar period is empty is NOT
omitted. -/
theorem C2_retention_churn_guard :
    (∀ rows : List DRow, ∀ m ∈ sortedKeys (rows.map (fun r => monthEndLabelOf r.t)),
      rows.filter (fun r => monthEndLabelOf r.t = m) ≠ []) ∧
    (∀ rows : List DRow, (calculateRetention rows).length
      = (sortedKeys (rows.map (fun r => monthEndLabelOf r.t))).length - 1) ∧
    (∀ rows : List DRow, ∀ e ∈ calculateRetention rows, ∃ pm,
      pm ∈ sortedKeys (rows.map (fun r => monthEndLabelOf r.t)) ∧
      ((rows.filter (fun r => monthEndLabelOf r.t = pm)).map DRow.uid).dedup ≠ [] ∧
      e.2 = ((((rows.filter (fun r => monthEndLabelOf r.t = pm)).map DRow.uid).dedup.filter
          (fun u => u ∈ ((rows.filter (fun r => monthEndLabelOf r.t = e.1)).map DRow.uid).dedup)).length : ℚ)
        / ((((rows.filter (fun r => monthEndLabelOf r.t = pm)).map DRow.uid).dedup.length : ℚ)) * 100) ∧
    (∀ act : List Activity, (churnSeries act).length
      = (sortedKeys (act.map Activity.p)).length - 1) := by
  refine ⟨?_, ?_, ?_, ?_⟩
  · intro rows m hm
    have h2 := grouped_month_nonempty hm
    intro hnil
    rw [hnil] at h2
    exact h2 rfl
  · intro rows
    unfold calculateRetention
    rw [List.length_map, List.length_zip, List.length_tail]
    omega
  · intro rows e he
    unfold calculateRetention at he
    obtain ⟨pc, hpc, hpe⟩ := List.mem_map.mp he
    have hmem := List.of_mem_zip hpc
    have hpu := @grouped_month_nonempty rows pc.1 hmem.1
    refine ⟨pc.1, hmem.1, hpu, ?_⟩
    rw [← hpe]
    simp only [if_neg hpu]
  · intro act
    unfold churnSeries
    rw [filterMap_length_of_some, List.length_zip, List.length_tail]
    · omega
    · intro pc hpc
      have hmem := List.of_mem_zip hpc
      have hpu := @grouped_period_nonempty act pc.1 hmem.1
      have hlen : 0 < ((act.filter (fun a => a.p = pc.1)).map Activity.uid).dedup.length :=
        List.length_pos.mpr hpu
      simp only [if_pos hlen, Option.isSome_some]

theorem likeSeries_cell_formula (itv : Interval) (hl : List HRow) (p : ℤ)
    (hne : hl.filter (fun r => r.streamId.isSome ∧ r.liked.isSome ∧ periodStart itv r.t = p) ≠ []) :
    seriesCell (likeSeries itv (hl.filter (fun r => r.streamId.isSome))) p
      = some (roundTo 4
          (((hl.filter (fun r => r.streamId.isSome ∧ r.liked = some true ∧
              periodStart itv r.t = p)).length : ℚ)
           / ((hl.filter (fun r => r.streamId.isSome ∧ r.liked.isSome ∧
              periodStart itv r.t = p)).length : ℚ) * 100)) := by
  unfold likeSeries
  have hden : (((hl.filter (fun r => r.streamId.isSome)).filter (fun r => r.liked.isSome)).filter
      (fun r => periodStart itv r.t = p))
      = hl.filter (fun r => r.streamId.isSome ∧ r.liked.isSome ∧ periodStart itv r.t = p) := by
    rw [List.filter_filter, List.filter_filter]
    apply List.filter_congr
    intro r _
    simp only [Bool.and_eq_true, decide_eq_true_eq, Bool.decide_and]
    rcases r.streamId.isSome <;> rcases r.liked.isSome <;>
      simp [Bool.and_comm, Bool.and_assoc, Bool.and_left_comm]
  have hnum : ((((hl.filter (fun r => r.streamId.isSome)).filter (fun r => r.liked.isSome)).filter
      (fun r => periodStart itv r.t = p)).filter (fun r => r.liked = some true))
      = hl.filter (fun r => r.streamId.isSome ∧ r.liked = some true ∧ periodStart itv r.t = p) := by
    rw [hden]
    rw [List.filter_filter]
    apply List.filter_congr
    intro r _
    simp only [Bool.and_eq_true, decide_eq_true_eq, Bool.decide_and]
    cases hlik : r.liked with
    | none => simp
    | some b => cases b <;> simp [Bool.and_comm, Bool.and_assoc, Bool.and_left_comm]
  obtain ⟨r0, hr0⟩ := List.exists_mem_of_ne_nil _ hne
  have hr0f := List.mem_filter.mp hr0
  have hr0p := of_decide_eq_true hr0f.2
  have hpmem : p ∈ ((hl.filter (fun r => r.streamId.isSome)).filter
      (fun r => r.liked.isSome)).map (fun r : HRow => periodStart itv r.t) := by
    apply List.mem_map.mpr
    refine ⟨r0, ?_, hr0p.2.2⟩
    apply List.mem_filter.mpr
    refine ⟨List.mem_filter.mpr ⟨hr0f.1, by simp [hr0p.1]⟩, by simp [hr0p.2.1]⟩
  rw [seriesCell_seriesMap, seriesCell_seriesMap]
  rw [seriesCell_seriesBinOp_mem]
  · rw [seriesCell_groupedBy_mem _ _ _ _ hpmem, seriesCell_groupedBy_mem _ _ _ _ hpmem]
    simp only [Option.map_some]
    rw [List.filter_filter] at hnum
    rw [List.filter_filter, hnum, hden]
    rfl
  · apply List.mem_append.mpr
    left
    unfold groupedBy seriesKeys
    rw [List.map_map]
    simpa using sortedKeys_mem.mpr hpmem

/-- C7: the like ratio of a period is computed only over rows whose nullable
liked field is non-null; null rows are excluded from both numerator and
denominator.  For the five-row table c7Rows with liked [T, T, F, null, null]
in one period the stored value is round4(2/3 * 100) = 66.6667 percent. -/
theorem C7_like_null_exclusion :
    (∀ (itv : Interval) (hl : List HRow) (p : ℤ),
      hl.filter (fun r => r.streamId.isSome ∧ r.liked.isSome ∧ periodStart itv r.t = p) ≠ [] →
      seriesCell (likeSeries itv (hl.filter (fun r => r.streamId.isSome))) p
        = some (roundTo 4
            (((hl.filter (fun r => r.streamId.isSome ∧ r.liked = some true ∧
                periodStart itv r.t = p)).length : ℚ)
             / ((hl.filter (fun r => r.streamId.isSome ∧ r.liked.isSome ∧
                periodStart itv r.t = p)).length : ℚ) * 100))) ∧
    seriesCell (likeSeries Interval.week (c7Rows.filter (fun r => r.streamId.isSome))) c7Period
      = some (roundTo 4 ((2 : ℚ) / 3 * 100)) ∧
    roundTo 4 ((2 : ℚ) / 3 * 100) = 666667 / 10000 := by
  refine ⟨likeSeries_cell_formula, ?_, ?_⟩
  · have h := likeSeries_cell_formula Interval.week c7Rows c7Period (by decide)
    have h2 : (c7Rows.filter (fun r => r.streamId.isSome ∧ r.liked = some true ∧
        periodStart Interval.week r.t = c7Period)).length = 2 := by decide
    have h3 : (c7Rows.filter (fun r => r.streamId.isSome ∧ r.liked.isSome ∧
        periodStart Interval.week r.t = c7Period)).length = 3 := by decide
    rw [h, h2, h3]
    norm_num
  · have hf : (Int.floor ((2 : ℚ) / 3 * 100 * 10 ^ 4)) = 666666 := by
      rw [Int.floor_eq_iff]
      norm_num
    simp only [roundTo, roundHalfEven, hf]
    norm_num

/-- Witness for C7 at the concrete five-row table. -/
theorem C7_like_null_exclusion_witness :
    c7Rows.filter (fun r => r.streamId.isSome ∧ r.liked.isSome ∧
      periodStart Interval.week r.t = c7Period) ≠ [] ∧
    seriesCell (likeSeries Interval.week (c7Rows.filter (fun r => r.streamId.isSome))) c7Period
      = some (roundTo 4
          (((c7Rows.filter (fun r => r.streamId.isSome ∧ r.liked = some true ∧
              periodStart Interval.week r.t = c7Period)).length : ℚ)
           / ((c7Rows.filter (fun r => r.streamId.isSome ∧ r.liked.isSome ∧
              periodStart Interval.week r.t = c7Period)).length : ℚ) * 100)) :=
  ⟨by decide, C7_like_null_exclusion.1 Interval.week c7Rows c7Period (by decide)⟩

theorem filter_append_single {α : Type} (p : α → Bool) (l : List α) (a : α) :
    (l ++ [a]).filter p = l.filter p ++ (if p a then [a] else []) := by
  rw [List.filter_append]
  congr 1
  by_cases h : p a = true
  · simp [h]
  · simp [List.filter, h]

theorem distinct_append_mem {g : List DRow} {r : DRow} (h : r ∈ g) :
    (distinctCount ((g ++ [r]).map DRow.uid) : ℚ) = (distinctCount (g.map DRow.uid) : ℚ) := by
  unfold distinctCount
  rw [List.map_append]
  have : ([r].map DRow.uid) = [r.uid] := rfl
  rw [this, dedup_length_append_mem (List.mem_map_of_mem DRow.uid h)]

theorem aggValue_unique_append_mem {g : List DRow} {r : DRow} (h : r ∈ g) :
    aggValue Agg.uniqueCount (g ++ [r]) = aggValue Agg.uniqueCount g :=
  distinct_append_mem h

theorem groupedBy_perm {α : Type} (key : α → ℤ) (f : List α → ℚ)
    (hf : ∀ g g2 : List α, g.Perm g2 → f g = f g2) {l l2 : List α} (h : l.Perm l2) :
    groupedBy key f l = groupedBy key f l2 := by
  unfold groupedBy
  rw [sortedKeys_perm (h.map key)]
  apply List.map_congr_left
  intro k _
  exact congrArg (fun v => (k, some v)) (hf _ _ (h.filter _))

theorem groupedBy_dup {α : Type} [DecidableEq α] (key : α → ℤ) (f : List α → ℚ)
    (hf : ∀ (g : List α) (x : α), x ∈ g → f (g ++ [x]) = f g) {l : List α} {x : α}
    (hx : x ∈ l) : groupedBy key f (l ++ [x]) = groupedBy key f l := by
  unfold groupedBy
  have hmap : (l ++ [x]).map key = l.map key ++ [key x] := by
    rw [List.map_append]
    rfl
  rw [hmap, sortedKeys_append_mem (List.mem_map_of_mem key hx)]
  apply List.map_congr_left
  intro k hk
  rw [filter_append_single]
  by_cases hkx : key x = k
  · rw [if_pos (by simp [hkx])]
    have hxg : x ∈ l.filter (fun r => key r = k) := List.mem_filter.mpr ⟨hx, by simp [hkx]⟩
    rw [hf _ _ hxg]
  · rw [if_neg (by simp [hkx]), List.append_nil]

theorem activity_distinct_append_mem (g : List Activity) (x : Activity) (h : x ∈ g) :
    (fun g2 : List Activity => (distinctCount (g2.map Activity.uid) : ℚ)) (g ++ [x])
      = (fun g2 : List Activity => (distinctCount (g2.map Activity.uid) : ℚ)) g := by
  simp only [distinctCount]
  have hmap : (g ++ [x]).map Activity.uid = g.map Activity.uid ++ [x.uid] := by
    rw [List.map_append]
    rfl
  rw [hmap, dedup_length_append_mem (List.mem_map_of_mem Activity.uid h)]

/-- C9: unique-count aggregation is idempotent under row duplication: appending
an exact duplicate of a row already present leaves the entire weekly
unique-count series (historical values and the extrapolated current value) and
the active_users series of _calculate_metrics unchanged. -/
theorem C9_unique_count_idempotent (today : ℤ) (rows : List DRow) (r : DRow) (hr : r ∈ rows)
    (itv : Interval) (streams : List SRow) (urls : List URow) (s : SRow) (hs : s ∈ streams) :
    getExtrapolatedWeeklyData today Agg.uniqueCount (rows ++ [r])
      = getExtrapolatedWeeklyData today Agg.uniqueCount rows ∧
    activeUsersSeries (allActivity itv (streams ++ [s]) urls)
      = activeUsersSeries (allActivity itv streams urls) := by
  constructor
  · have hr0 : rows ≠ [] := List.ne_nil_of_mem hr
    have hr1 : rows ++ [r] ≠ [] := by simp
    by_cases hA : r.t ≤ today
    · by_cases hB : fixedWeekStart r.t = currentWeekStart today
      · -- duplicate lands in the current week
        have hcur : weeklyCurrent today (rows ++ [r]) = weeklyCurrent today rows ++ [r] := by
          unfold weeklyCurrent
          rw [List.filter_append, List.filter_append]
          simp [hA, hB]
        have hhist : weeklyHistorical today (rows ++ [r]) = weeklyHistorical today rows := by
          unfold weeklyHistorical
          rw [List.filter_append, List.filter_append]
          simp [hA, hB]
        have hrcur : r ∈ weeklyCurrent today rows := by
          unfold weeklyCurrent
          exact List.mem_filter.mpr ⟨List.mem_filter.mpr ⟨hr, by simp [hA]⟩, by simp [hB]⟩
        have hout : weeklyHistOut today Agg.uniqueCount (rows ++ [r])
            = weeklyHistOut today Agg.uniqueCount rows := by
          unfold weeklyHistOut
          rw [hhist]
        have hprov : weeklyProvisionalValue today Agg.uniqueCount (rows ++ [r])
            = weeklyProvisionalValue today Agg.uniqueCount rows := by
          unfold weeklyProvisionalValue
          rw [hcur, aggValue_unique_append_mem hrcur]
        unfold getExtrapolatedWeeklyData
        rw [if_neg hr1, if_neg hr0, hcur, hout, hprov]
        have hne1 : weeklyCurrent today rows ++ [r] ≠ [] := by simp
        have hne2 : weeklyCurrent today rows ≠ [] := List.ne_nil_of_mem hrcur
        rw [if_neg hne1, if_neg hne2]
      · -- duplicate lands in a historical week
        have hcur : weeklyCurrent today (rows ++ [r]) = weeklyCurrent today rows := by
          unfold weeklyCurrent
          rw [List.filter_append, List.filter_append]
          simp [hA, hB]
        have hhist : weeklyHistorical today (rows ++ [r])
            = weeklyHistorical today rows ++ [r] := by
          unfold weeklyHistorical
          rw [List.filter_append, List.filter_append]
          simp [hA, hB]
        have hrhist : r ∈ weeklyHistorical today rows := by
          unfold weeklyHistorical
          exact List.mem_filter.mpr ⟨List.mem_filter.mpr ⟨hr, by simp [hA]⟩, by simp [hB]⟩
        have hout : weeklyHistOut today Agg.uniqueCount (rows ++ [r])
            = weeklyHistOut today Agg.uniqueCount rows := by
          unfold weeklyHistOut
          rw [hhist]
          have hmap : (weeklyHistorical today rows ++ [r]).map (fun r2 => fixedWeekStart r2.t)
              = (weeklyHistorical today rows).map (fun r2 => fixedWeekStart r2.t)
                ++ [fixedWeekStart r.t] := by
            rw [List.map_append]
            rfl
          rw [hmap, sortedKeys_append_mem
            (List.mem_map_of_mem (fun r2 => fixedWeekStart r2.t) hrhist)]
          apply List.map_congr_left
          intro k hk
          rw [filter_append_single]
          by_cases hkx : fixedWeekStart r.t = k
          · rw [if_pos (by simp [hkx])]
            have hxg : r ∈ (weeklyHistorical today rows).filter
                (fun r2 => fixedWeekStart r2.t = k) :=
              List.mem_filter.mpr ⟨hrhist, by simp [hkx]⟩
            rw [aggValue_unique_append_mem hxg]
          · rw [if_neg (by simp [hkx]), List.append_nil]
        have hprov : weeklyProvisionalValue today Agg.uniqueCount (rows ++ [r])
            = weeklyProvisionalValue today Agg.uniqueCount rows := by
          unfold weeklyProvisionalValue
          rw [hcur]
        unfold getExtrapolatedWeeklyData
        rw [if_neg hr1, if_neg hr0, hcur, hout, hprov]
    · -- the duplicate is future-dated: the future filter removes it again
      have hflt : (rows ++ [r]).filter (fun r2 => r2.t ≤ today)
          = rows.filter (fun r2 => r2.t ≤ today) := by
        rw [List.filter_append]
        simp [hA]
      have hcur : weeklyCurrent today (rows ++ [r]) = weeklyCurrent today rows := by
        unfold weeklyCurrent
        rw [hflt]
      have hhist : weeklyHistorical today (rows ++ [r]) = weeklyHistorical today rows := by
        unfold weeklyHistorical
        rw [hflt]
      have hout : weeklyHistOut today Agg.uniqueCount (rows ++ [r])
          = weeklyHistOut today Agg.uniqueCount rows := by
        unfold weeklyHistOut
        rw [hhist]
      have hprov : weeklyProvisionalValue today Agg.uniqueCount (rows ++ [r])
          = weeklyProvisionalValue today Agg.uniqueCount rows := by
        unfold weeklyProvisionalValue
        rw [hcur]
      unfold getExtrapolatedWeeklyData
      rw [if_neg hr1, if_neg hr0, hcur, hout, hprov]
  · -- active_users of _calculate_metrics
    have hperm : (allActivity itv (streams ++ [s]) urls).Perm
        (allActivity itv streams urls ++ [Activity.mk s.uid (periodStart itv s.t)]) := by
      unfold allActivity
      have hmap : (streams ++ [s]).map (fun r => Activity.mk r.uid (periodStart itv r.t))
          = streams.map (fun r => Activity.mk r.uid (periodStart itv r.t))
            ++ [Activity.mk s.uid (periodStart itv s.t)] := by
        rw [List.map_append]
        rfl
      rw [hmap, List.append_assoc, List.append_assoc]
      exact List.Perm.append_left _ List.perm_append_comm
    have hmem : Activity.mk s.uid (periodStart itv s.t) ∈ allActivity itv streams urls := by
      unfold allActivity
      apply List.mem_append.mpr
      left
      exact List.mem_map_of_mem _ hs
    unfold activeUsersSeries
    rw [groupedBy_perm Activity.p _ ?hf hperm]
    case hf =>
      intro g g2 hg
      simp only [distinctCount]
      rw [((hg.map Activity.uid).dedup).length_eq]
    exact groupedBy_dup Activity.p _ activity_distinct_append_mem hmem

/-- Witness for C9: duplicating the first signup row of c6Rows (and the single
stream row of c4Streams) leaves the unique-count outputs unchanged. -/
theorem C9_unique_count_idempotent_witness :
    DRow.mk (daysFromCivil 2024 9 29 * secPerDay) 1 ∈ c6Rows ∧
    getExtrapolatedWeeklyData sampleToday Agg.uniqueCount
        (c6Rows ++ [DRow.mk (daysFromCivil 2024 9 29 * secPerDay) 1])
      = getExtrapolatedWeeklyData sampleToday Agg.uniqueCount c6Rows :=
  ⟨by decide,
   (C9_unique_count_idempotent sampleToday c6Rows
      (DRow.mk (daysFromCivil 2024 9 29 * secPerDay) 1) (by decide)
      Interval.week c4Streams c4Urls (SRow.mk 1 (daysFromCivil 2025 1 6 * secPerDay))
      (by decide)).1⟩

theorem weeklyHistKeys_lt (today : ℤ) (rows : List DRow) {k : ℤ}
    (hk : k ∈ sortedKeys ((weeklyHistorical today rows).map (fun r => fixedWeekStart r.t))) :
    k < currentWeekStart today := by
  obtain ⟨r, hr, rfl⟩ := List.mem_map.mp (sortedKeys_mem.mp hk)
  have h2 := List.mem_filter.mp hr
  have h3 := List.mem_filter.mp h2.1
  have ht : r.t ≤ today := of_decide_eq_true h3.2
  have hne : ¬ fixedWeekStart r.t = currentWeekStart today := of_decide_eq_true h2.2
  exact fixedWeekStart_lt_cws ht hne

theorem keysMap_sorted (v : ℤ → ℚ) (ks : List ℤ) (h : ks.Sorted (fun a b => a ≤ b)) :
    List.Sorted (fun a b : OutRow => a.period ≤ b.period)
      (ks.map (fun k => OutRow.mk k (v k) false)) := by
  unfold List.Sorted at *
  rw [List.pairwise_map]
  exact h

theorem keysMap_nodup (v : ℤ → ℚ) (ks : List ℤ) (h : ks.Nodup) :
    (ks.map (fun k => OutRow.mk k (v k) false)).Nodup := by
  apply List.Nodup.map_on ?_ h
  intro x _ y _ hxy
  exact congrArg OutRow.period hxy

theorem sorted_append_max {hl : List OutRow} {p : OutRow}
    (hs : List.Sorted (fun a b : OutRow => a.period ≤ b.period) hl)
    (hmax : ∀ a ∈ hl, a.period ≤ p.period) :
    List.Sorted (fun a b : OutRow => a.period ≤ b.period) (hl ++ [p]) := by
  unfold List.Sorted at *
  rw [List.pairwise_append]
  refine ⟨hs, List.pairwise_singleton _ _, ?_⟩
  intro a ha b hb
  rw [List.mem_singleton.mp hb]
  exact hmax a ha

/-- C5, counterexample: get_weekly_signups in src/utils.py sorts its output
descending, so with one historical week and the current week present the
provisional row is the FIRST row of the output, not the last. -/
theorem C5_counterexample_desc_order :
    (utilsWeeklySignups sampleToday c5Rows).length = 2 ∧
    ((utilsWeeklySignups sampleToday c5Rows).head?.map (fun r => r.flag)) = some true ∧
    ((utilsWeeklySignups sampleToday c5Rows).getLast?.map (fun r => r.flag)) = some false := by
  refine ⟨by decide, by decide, by decide⟩

/-- C5, amended: get_extrapolated_weekly_data returns rows in ascending
chronological order and its single provisional row, when present, is the last
row; get_weekly_signups of src/utils.py sorts descending, so its rows are
newest first and its single provisional row, when present, is the FIRST row,
not the last. -/
theorem C5_ordering (today : ℤ) (agg : Agg) (rows rowsS : List DRow) :
    List.Sorted (fun a b : OutRow => a.period ≤ b.period)
      (getExtrapolatedWeeklyData today agg rows) ∧
    (∀ r ∈ getExtrapolatedWeeklyData today agg rows, r.flag = true →
      (getExtrapolatedWeeklyData today agg rows).getLast? = some r) ∧
    List.Sorted (fun a b : OutRow => b.period ≤ a.period) (utilsWeeklySignups today rowsS) ∧
    (∀ r ∈ utilsWeeklySignups today rowsS, r.flag = true →
      (utilsWeeklySignups today rowsS).head? = some r) := by
  have hHistSorted : List.Sorted (fun a b : OutRow => a.period ≤ b.period)
      (weeklyHistOut today agg rows) :=
    keysMap_sorted _ _ (sortedKeys_sorted _)
  have hHistLt : ∀ a ∈ weeklyHistOut today agg rows, a.period < currentWeekStart today := by
    intro a ha
    obtain ⟨k, hk, rfl⟩ := List.mem_map.mp ha
    exact weeklyHistKeys_lt today rows hk
  have hSignLt : ∀ a ∈ signupHistOut today rowsS, a.period < currentWeekStart today := by
    intro a ha
    obtain ⟨k, hk, rfl⟩ := List.mem_map.mp ha
    exact weeklyHistKeys_lt today rowsS hk
  refine ⟨?_, ?_, ?_, ?_⟩
  · unfold getExtrapolatedWeeklyData
    by_cases h0 : rows = []
    · rw [if_pos h0]
      exact List.sorted_nil
    · rw [if_neg h0]
      exact List.sorted_insertionSort _ _
  · intro r hr hf
    unfold getExtrapolatedWeeklyData at hr ⊢
    by_cases h0 : rows = []
    · rw [if_pos h0] at hr
      cases hr
    · rw [if_neg h0] at hr ⊢
      by_cases hc : weeklyCurrent today rows = []
      · rw [if_pos hc] at hr
        exfalso
        unfold sortAsc at hr
        have hr2 := (List.perm_insertionSort _ _).mem_iff.mp hr
        rw [weeklyHistOut_flag today agg rows _ hr2] at hf
        cases hf
      · rw [if_neg hc] at hr ⊢
        set p := OutRow.mk (currentWeekStart today) (weeklyProvisionalValue today agg rows) true
          with hp
        have hsl : List.Sorted (fun a b : OutRow => a.period ≤ b.period)
            (weeklyHistOut today agg rows ++ [p]) := by
          apply sorted_append_max hHistSorted
          intro a ha
          rw [hp]
          exact le_of_lt (hHistLt a ha)
        have hid : sortAsc (weeklyHistOut today agg rows ++ [p])
            = weeklyHistOut today agg rows ++ [p] := List.Sorted.insertionSort_eq hsl
        rw [hid] at hr ⊢
        have hrp : r = p := by
          rcases List.mem_append.mp hr with h2 | h2
          · exfalso
            rw [weeklyHistOut_flag today agg rows _ h2] at hf
            cases hf
          · exact List.mem_singleton.mp h2
        rw [hrp]
        exact List.getLast?_concat _
  · unfold utilsWeeklySignups
    by_cases h0 : rowsS = []
    · rw [if_pos h0]
      exact List.sorted_nil
    · rw [if_neg h0]
      exact List.sorted_insertionSort _ _
  · intro r hr hf
    unfold utilsWeeklySignups at hr ⊢
    by_cases h0 : rowsS = []
    · rw [if_pos h0] at hr
      cases hr
    · rw [if_neg h0] at hr ⊢
      by_cases hc : weeklyCurrent today rowsS = []
      · rw [if_pos hc] at hr
        exfalso
        unfold sortDesc at hr
        have hr2 := (List.perm_insertionSort _ _).mem_iff.mp hr
        rw [signupHistOut_flag today rowsS _ hr2] at hf
        cases hf
      · rw [if_neg hc] at hr ⊢
        set p := OutRow.mk (currentWeekStart today) (utilsSignupValue today rowsS) true with hp
        set l := signupHistOut today rowsS ++ [p] with hl
        have hmemeq : ∀ x ∈ l, x.flag = true → x = p := by
          intro x hx hxf
          rcases List.mem_append.mp hx with h2 | h2
          · exfalso
            rw [signupHistOut_flag today rowsS _ h2] at hxf
            cases hxf
          · exact List.mem_singleton.mp h2
        have hperm : (sortDesc l).Perm l := List.perm_insertionSort _ _
        have hrp : r = p := hmemeq r (hperm.mem_iff.mp hr) hf
        have hsorted : List.Sorted (fun a b : OutRow => b.period ≤ a.period) (sortDesc l) :=
          List.sorted_insertionSort _ _
        have hpl : p ∈ sortDesc l := hperm.mem_iff.mpr
          (List.mem_append.mpr (Or.inr (List.mem_singleton.mpr rfl)))
        cases hds : sortDesc l with
        | nil =>
            exfalso
            rw [hds] at hpl
            cases hpl
        | cons a t =>
            have ha : a ∈ sortDesc l := by
              rw [hds]
              exact List.mem_cons_self a t
            have hap : a = p := by
              rcases List.mem_append.mp (hperm.mem_iff.mp ha) with h2 | h2
              · exfalso
                have halt := hSignLt a h2
                have hpt : p ∈ t := by
                  rcases List.mem_cons.mp (hds ▸ hpl) with h3 | h3
                  · exfalso
                    rw [← h3, hp] at halt
                    exact lt_irrefl _ halt
                  · exact h3
                have hrel := List.rel_of_sorted_cons (hds ▸ hsorted) p hpt
                have hle : currentWeekStart today ≤ a.period := hrel
                exact absurd halt (not_lt.mpr hle)
              · exact List.mem_singleton.mp h2
            rw [hrp]
            simp [hap]

/-- Witness for C5: the weekly aggregator output over c6Rows ends with its
provisional row. -/
theorem C5_ordering_witness :
    (getExtrapolatedWeeklyData sampleToday Agg.count c6Rows).getLast?
      = some (OutRow.mk (currentWeekStart sampleToday)
          (weeklyProvisionalValue sampleToday Agg.count c6Rows) true) := by
  have hmem : OutRow.mk (currentWeekStart sampleToday)
      (weeklyProvisionalValue sampleToday Agg.count c6Rows) true
      ∈ getExtrapolatedWeeklyData sampleToday Agg.count c6Rows := by
    apply List.mem_of_mem_filter (p := fun r : OutRow => r.flag)
    rw [weekly_filter_flag sampleToday Agg.count c6Rows (by decide) (by decide)]
    exact List.mem_singleton.mpr rfl
  exact (C5_ordering sampleToday Agg.count c6Rows c5Rows).2.1 _ hmem rfl

theorem find?_append_none {α : Type} (p : α → Bool) {l1 : List α} (l2 : List α)
    (h : l1.find? p = none) : (l1 ++ l2).find? p = l2.find? p := by
  induction l1 with
  | nil => rfl
  | cons a t ih =>
      by_cases hpa : p a = true
      · rw [List.find?_cons_of_pos _ hpa] at h
        cases h
      · rw [List.find?_cons_of_neg _ hpa] at h
        rw [List.cons_append, List.find?_cons_of_neg _ hpa]
        exact ih h

theorem string_contains_iff {l : List String} {c : String} : l.contains c = true ↔ c ∈ l :=
  List.elem_iff

/-- C4, counterexample: with one stream in the week of 2025-01-05 and one
active url row in the week of 2025-01-12, the assembled weekly table contains
the churn_rate column and a row for the first period, but the churn_rate cell
of the first period row is NaN (missing), not 0: only entirely absent columns
are zero-filled. -/
theorem C4_counterexample_nan_cell :
    "churn_rate" ∈ catalogColumns ∧
    (calculateMetrics Interval.week c4Streams [] [] [] c4Urls).map
      (fun T => (decide ("churn_rate" ∈ T.cols.map Prod.fst),
                 decide (c4PeriodA ∈ T.index),
                 cellOf T "churn_rate" c4PeriodA)) = some (true, true, none) := by
  exact ⟨by decide, by decide⟩

/-- C4, amended: every metric column named in the catalog is present in the
combined table for every input; a metric whose series is entirely absent from
the computed dict is filled with 0 at every period row; but a metric computed
only for some periods keeps NaN (a missing value), not 0, at the period rows
it lacks. -/
theorem C4_catalog_columns (itv : Interval) (streams : List SRow) (highlights : List HRow)
    (livestreams bots : List SRow) (urls : List URow) (T : MetricsTable)
    (hT : calculateMetrics itv streams highlights livestreams bots urls = some T) :
    (∀ c ∈ catalogColumns, c ∈ T.cols.map Prod.fst) ∧
    (streams ≠ [] →
      ∀ c ∈ catalogColumns,
        c ∉ (computeMetricsDict itv streams highlights livestreams bots urls).map Prod.fst →
        ∀ k ∈ T.index, cellOf T c k = some 0) := by
  unfold calculateMetrics at hT
  by_cases h1 : streams = [] ∧ highlights = [] ∧ livestreams = []
  · rw [if_pos h1] at hT
    have hTe := Option.some.inj hT
    constructor
    · intro c hc
      rw [← hTe]
      simp only [List.map_map]
      have hid : ((Prod.fst (α := String) (β := Series)) ∘ (fun c => (c, ([] : Series))))
          = id := rfl
      rw [hid, List.map_id]
      exact hc
    · intro hs
      exact absurd h1.1 hs
  · rw [if_neg h1] at hT
    by_cases h2 : streams = []
    · rw [if_pos h2] at hT
      cases hT
    · rw [if_neg h2] at hT
      have hTe := Option.some.inj hT
      have hcols : T.cols = computeMetricsDict itv streams highlights livestreams bots urls
          ++ (catalogColumns.filter (fun c => ¬ (((computeMetricsDict itv streams highlights
                livestreams bots urls).map Prod.fst).contains c))).map
              (fun c => (c, (T.index.map (fun k => (k, some (0 : ℚ))) : Series))) := by
        rw [← hTe]
        rfl
      have hidx : T.index = sortedKeys (((computeMetricsDict itv streams highlights livestreams
          bots urls).map (fun c => seriesKeys c.2)).flatten) := by
        rw [← hTe]
        rfl
      constructor
      · intro c hc
        rw [hcols, List.map_append, List.map_map]
        apply List.mem_append.mpr
        by_cases hcd : c ∈ (computeMetricsDict itv streams highlights livestreams bots
            urls).map Prod.fst
        · exact Or.inl hcd
        · right
          have hcm : c ∈ catalogColumns.filter (fun c2 => ¬ (((computeMetricsDict itv streams
              highlights livestreams bots urls).map Prod.fst).contains c2)) := by
            apply List.mem_filter.mpr
            refine ⟨hc, ?_⟩
            simp only [decide_eq_true_eq]
            intro hcontains
            exact hcd (string_contains_iff.mp hcontains)
          have hid : ((Prod.fst (α := String) (β := Series)) ∘
              (fun c2 => (c2, (T.index.map (fun k => (k, some (0 : ℚ))) : Series)))) = id := rfl
          rw [hid, List.map_id]
          exact hcm
      · intro _ c hc hcd k hk
        have hfind1 : (computeMetricsDict itv streams highlights livestreams bots
            urls).find? (fun p => p.1 = c) = none := by
          apply List.find?_eq_none.mpr
          intro x hx
          simp only [decide_eq_true_eq]
          intro hxc
          exact hcd (hxc ▸ List.mem_map_of_mem Prod.fst hx)
        have hcm : c ∈ catalogColumns.filter (fun c2 => ¬ (((computeMetricsDict itv streams
            highlights livestreams bots urls).map Prod.fst).contains c2)) := by
          apply List.mem_filter.mpr
          refine ⟨hc, ?_⟩
          simp only [decide_eq_true_eq]
          intro hcontains
          exact hcd (string_contains_iff.mp hcontains)
        unfold cellOf
        rw [hcols, find?_append_none _ _ hfind1, List.find?_map]
        have hcomp : ((fun p : String × Series => decide (p.1 = c)) ∘
            (fun c2 => (c2, (T.index.map (fun k => (k, some (0 : ℚ))) : Series))))
            = fun x : String => decide (x = c) := rfl
        rw [hcomp, find?_self_of_mem hcm]
        exact seriesCell_keysMap (fun _ => some 0) T.index k hk

/-- Witness for C4: the c4 scenario table is produced, new_bots is absent from
the computed dict (bots input empty), and its zero-filled cell at the first
period row is 0. -/
theorem C4_catalog_columns_witness :
    calculateMetrics Interval.week c4Streams [] [] [] c4Urls = some c4Table ∧
    "new_bots" ∈ catalogColumns ∧
    "new_bots" ∉ (computeMetricsDict Interval.week c4Streams [] [] [] c4Urls).map Prod.fst ∧
    c4PeriodA ∈ c4Table.index ∧
    cellOf c4Table "new_bots" c4PeriodA = some 0 := by
  refine ⟨rfl, by decide, by decide, by decide, ?_⟩
  exact (C4_catalog_columns Interval.week c4Streams [] [] [] c4Urls c4Table rfl).2
    (by decide) "new_bots" (by decide) (by decide) c4PeriodA (by decide)

end SA
